import Mathlib

/-!
Verification of the regolith record-filtering and date-reasoning core
(`regolith/dates.py`, `regolith/tools.py`) against its natural-language
specification.

Python values stored in documents are shallowly embedded as the inductive
type `Val` (None, strings, ints, bools, `datetime.date` objects, lists and
dicts).  Python dicts are association lists with first-key-wins lookup and
in-place update (Python dicts have unique keys, preserve insertion order and
update values in place).  Fallible Python code (KeyError, TypeError,
ValueError, `sys.exit`, ...) is embedded with `Except PyErr`.  Functions
that mutate their arguments in place are embedded by returning the post-call
state of the mutated collection alongside the return value.  CPython floats
are modelled as exact rationals (`ℚ`); `time.mktime`/`strptime` timestamp
comparison of valid calendar dates is modelled by comparison of the
strictly monotone encoding `y*10000 + m*100 + d`.
-/

/-- A Python value as it appears in a regolith document. -/
inductive Val where
  | none : Val
  | str : String → Val
  | int : Int → Val
  | bool : Bool → Val
  | date : Int → Int → Int → Val
  | list : List Val → Val
  | dict : List (String × Val) → Val

mutual
/-- Decidable equality on values (Python `==` on the embedded fragment). -/
def Val.deq : (a b : Val) → Decidable (a = b)
  | .none, .none => isTrue rfl
  | .str a, .str b => decidable_of_iff (a = b) (by simp)
  | .int a, .int b => decidable_of_iff (a = b) (by simp)
  | .bool a, .bool b => decidable_of_iff (a = b) (by simp)
  | .date a b c, .date a' b' c' =>
      decidable_of_iff (a = a' ∧ b = b' ∧ c = c') (by simp)
  | .list xs, .list ys =>
      match Val.deqList xs ys with
      | isTrue h => isTrue (by rw [h])
      | isFalse h => isFalse (by simp [h])
  | .dict xs, .dict ys =>
      match Val.deqDict xs ys with
      | isTrue h => isTrue (by rw [h])
      | isFalse h => isFalse (by simp [h])
  | .none, .str _ => isFalse (fun h => Val.noConfusion h)
  | .none, .int _ => isFalse (fun h => Val.noConfusion h)
  | .none, .bool _ => isFalse (fun h => Val.noConfusion h)
  | .none, .date _ _ _ => isFalse (fun h => Val.noConfusion h)
  | .none, .list _ => isFalse (fun h => Val.noConfusion h)
  | .none, .dict _ => isFalse (fun h => Val.noConfusion h)
  | .str _, .none => isFalse (fun h => Val.noConfusion h)
  | .str _, .int _ => isFalse (fun h => Val.noConfusion h)
  | .str _, .bool _ => isFalse (fun h => Val.noConfusion h)
  | .str _, .date _ _ _ => isFalse (fun h => Val.noConfusion h)
  | .str _, .list _ => isFalse (fun h => Val.noConfusion h)
  | .str _, .dict _ => isFalse (fun h => Val.noConfusion h)
  | .int _, .none => isFalse (fun h => Val.noConfusion h)
  | .int _, .str _ => isFalse (fun h => Val.noConfusion h)
  | .int _, .bool _ => isFalse (fun h => Val.noConfusion h)
  | .int _, .date _ _ _ => isFalse (fun h => Val.noConfusion h)
  | .int _, .list _ => isFalse (fun h => Val.noConfusion h)
  | .int _, .dict _ => isFalse (fun h => Val.noConfusion h)
  | .bool _, .none => isFalse (fun h => Val.noConfusion h)
  | .bool _, .str _ => isFalse (fun h => Val.noConfusion h)
  | .bool _, .int _ => isFalse (fun h => Val.noConfusion h)
  | .bool _, .date _ _ _ => isFalse (fun h => Val.noConfusion h)
  | .bool _, .list _ => isFalse (fun h => Val.noConfusion h)
  | .bool _, .dict _ => isFalse (fun h => Val.noConfusion h)
  | .date _ _ _, .none => isFalse (fun h => Val.noConfusion h)
  | .date _ _ _, .str _ => isFalse (fun h => Val.noConfusion h)
  | .date _ _ _, .int _ => isFalse (fun h => Val.noConfusion h)
  | .date _ _ _, .bool _ => isFalse (fun h => Val.noConfusion h)
  | .date _ _ _, .list _ => isFalse (fun h => Val.noConfusion h)
  | .date _ _ _, .dict _ => isFalse (fun h => Val.noConfusion h)
  | .list _, .none => isFalse (fun h => Val.noConfusion h)
  | .list _, .str _ => isFalse (fun h => Val.noConfusion h)
  | .list _, .int _ => isFalse (fun h => Val.noConfusion h)
  | .list _, .bool _ => isFalse (fun h => Val.noConfusion h)
  | .list _, .date _ _ _ => isFalse (fun h => Val.noConfusion h)
  | .list _, .dict _ => isFalse (fun h => Val.noConfusion h)
  | .dict _, .none => isFalse (fun h => Val.noConfusion h)
  | .dict _, .str _ => isFalse (fun h => Val.noConfusion h)
  | .dict _, .int _ => isFalse (fun h => Val.noConfusion h)
  | .dict _, .bool _ => isFalse (fun h => Val.noConfusion h)
  | .dict _, .date _ _ _ => isFalse (fun h => Val.noConfusion h)
  | .dict _, .list _ => isFalse (fun h => Val.noConfusion h)

def Val.deqList : (xs ys : List Val) → Decidable (xs = ys)
  | [], [] => isTrue rfl
  | [], _ :: _ => isFalse (fun h => List.noConfusion h)
  | _ :: _, [] => isFalse (fun h => List.noConfusion h)
  | x :: xs, y :: ys =>
      match Val.deq x y, Val.deqList xs ys with
      | isTrue h1, isTrue h2 => isTrue (by rw [h1, h2])
      | isFalse h1, _ => isFalse (by simp [h1])
      | _, isFalse h2 => isFalse (by simp [h2])

def Val.deqDict : (xs ys : List (String × Val)) → Decidable (xs = ys)
  | [], [] => isTrue rfl
  | [], _ :: _ => isFalse (fun h => List.noConfusion h)
  | _ :: _, [] => isFalse (fun h => List.noConfusion h)
  | (k, x) :: xs, (k', y) :: ys =>
      match decEq k k', Val.deq x y, Val.deqDict xs ys with
      | isTrue hk, isTrue h1, isTrue h2 => isTrue (by rw [hk, h1, h2])
      | isFalse hk, _, _ => isFalse (by simp [hk])
      | _, isFalse h1, _ => isFalse (by simp [h1])
      | _, _, isFalse h2 => isFalse (by simp [h2])
end

instance : DecidableEq Val := Val.deq

/-- A Python dict with string keys: an association list with unique keys in
insertion order (how every regolith document is stored). -/
abbrev Doc := List (String × Val)

/-- First-occurrence association-list lookup (Python dict lookup; the
embedded dicts have unique keys). -/
def alookup [DecidableEq α] (m : List (α × β)) (k : α) : Option β :=
  match m with
  | [] => Option.none
  | (k', v) :: rest => if k' = k then some v else alookup rest k

/-- `doc.get(k)` without default: `None` when the key is absent (Python's
`dict.get` one-argument form). -/
def Doc.get? (d : Doc) (k : String) : Option Val :=
  alookup d k

/-- `doc.get(k, default)`. -/
def Doc.getD (d : Doc) (k : String) (dflt : Val) : Val :=
  (Doc.get? d k).getD dflt

/-- The Python exceptions (and `sys.exit`) that the embedded code can raise. -/
inductive PyErr where
  | keyError : PyErr
  | typeError : PyErr
  | valueError : PyErr
  | indexError : PyErr
  | nameError : PyErr
  | attributeError : PyErr
  | systemExit : PyErr
  deriving DecidableEq

/-- `doc[k]`: raises `KeyError` when absent. -/
def Doc.getE (d : Doc) (k : String) : Except PyErr Val :=
  match Doc.get? d k with
  | some v => .ok v
  | Option.none => .error .keyError

/-- `d[k] = v` on a Python dict: update in place when the key exists
(keeping its position), otherwise append at the end. -/
def Doc.set (d : Doc) (k : String) (v : Val) : Doc :=
  match d with
  | [] => [(k, v)]
  | (k', v') :: rest =>
      if k' = k then (k, v) :: rest else (k', v') :: Doc.set rest k v

instance [DecidableEq ε] [DecidableEq α] : DecidableEq (Except ε α) :=
  fun a b =>
    match a, b with
    | .ok x, .ok y => decidable_of_iff (x = y) (by simp)
    | .error x, .error y => decidable_of_iff (x = y) (by simp)
    | .ok _, .error _ => isFalse (fun h => Except.noConfusion h)
    | .error _, .ok _ => isFalse (fun h => Except.noConfusion h)

/-! ## `regolith/dates.py` -/

/-- ASCII lowercasing of one character, as Python `str.lower` acts on the
ASCII month names used throughout this code. -/
def lowerChar (c : Char) : Char :=
  if 65 ≤ c.toNat ∧ c.toNat ≤ 90 then Char.ofNat (c.toNat + 32) else c

/-- Python `s.lower()` (ASCII fragment). -/
def pyLower (s : String) : String :=
  ⟨s.data.map lowerChar⟩

/-- An ASCII decimal digit (the digits Python `int()` accepts here). -/
def isAsciiDigit (c : Char) : Bool :=
  decide (48 ≤ c.toNat ∧ c.toNat ≤ 57)

/-- Value of a nonempty all-digit character list, `none` otherwise. -/
def digitsToNat (l : List Char) : Option Nat :=
  if l ≠ [] ∧ l.all isAsciiDigit then
    some (l.foldl (fun a c => 10 * a + (c.toNat - 48)) 0)
  else Option.none

/-- Python `int(s)` on a string: an optional sign followed by decimal
digits; anything else raises `ValueError`.  (Python additionally strips
surrounding whitespace and allows digit-group underscores; no caller in
this code relies on that.) -/
def pyParseInt (s : String) : Option Int :=
  match s.data with
  | [] => Option.none
  | c :: rest =>
      if c = '-' then (digitsToNat rest).map (fun n => -(n : Int))
      else if c = '+' then (digitsToNat rest).map (fun n => (n : Int))
      else (digitsToNat (c :: rest)).map (fun n => (n : Int))

/-- Python `int(x)` for the value kinds that reach it here; `none` stands
for the `TypeError`/`ValueError` raised otherwise. -/
def pyToInt : Val → Option Int
  | .int n => some n
  | .bool b => some (if b then 1 else 0)
  | .str s => pyParseInt s
  | _ => Option.none

/-- The `MONTHS` table of `regolith/dates.py`, in source order. -/
def MONTHS : List (String × Int) :=
  [("jan", 1), ("jan.", 1), ("january", 1),
   ("feb", 2), ("feb.", 2), ("february", 2),
   ("mar", 3), ("mar.", 3), ("march", 3),
   ("apr", 4), ("apr.", 4), ("april", 4),
   ("may", 5), ("may.", 5),
   ("jun", 6), ("jun.", 6), ("june", 6),
   ("jul", 7), ("jul.", 7), ("july", 7),
   ("aug", 8), ("aug.", 8), ("august", 8),
   ("sep", 9), ("sep.", 9), ("sept", 9), ("sept.", 9), ("september", 9),
   ("oct", 10), ("oct.", 10), ("october", 10),
   ("nov", 11), ("nov.", 11), ("november", 11),
   ("dec", 12), ("dec.", 12), ("december", 12),
   ("", 1)]

/-- `month_to_int(m)`: `int(m)` when that succeeds, else the `MONTHS` table
on `m.lower()`; `none` stands for the uncaught exception (`KeyError` for an
unrecognized name, `TypeError` for a non-int non-str value — only
`ValueError` is caught by the `try`). -/
def month_to_int : Val → Option Int
  | .int n => some n
  | .bool b => some (if b then 1 else 0)
  | .str s =>
      match pyParseInt s with
      | some n => some n
      | Option.none => MONTHS.lookup (pyLower s)
  | _ => Option.none

/-- `date_to_float(y, m, d)` from `regolith/dates.py`, with CPython floats
modelled as exact rationals: `int(y) + month_to_int(m)/100 + int(d)/10000`. -/
def date_to_float (y m d : Val) : Option ℚ := do
  let yi ← pyToInt y
  let mi ← month_to_int m
  let di ← pyToInt d
  return (yi : ℚ) + (mi : ℚ) / 100 + (di : ℚ) / 10000

/-- `calendar.isleap(y)` (the leap rule used by `calendar.monthrange`). -/
def isLeap (y : Int) : Bool :=
  y % 4 = 0 ∧ (y % 100 ≠ 0 ∨ y % 400 = 0)

/-- `calendar.monthrange(y, m)[1]`: the number of days of month `m` of year
`y`.  Only meaningful for `1 ≤ m ≤ 12` (guarded at every call site, since
`monthrange` raises `IllegalMonthError` otherwise). -/
def daysInMonth (y m : Int) : Int :=
  if m = 2 then (if isLeap y then 29 else 28)
  else if m = 4 ∨ m = 6 ∨ m = 9 ∨ m = 11 then 30
  else 31

/-! ## Date-range predicates of `regolith/tools.py`

`is_since`/`is_before`/`is_between` build `"d/m/Y"` strings, parse them with
`strptime` and compare `time.mktime` timestamps.  `strptime`+`mktime`
succeed exactly on valid calendar dates (year in `datetime`'s range,
month 1–12, day within the month), and the timestamp is strictly monotone
in the calendar date, so the comparison is embedded as a comparison of
`dateKey y m d = y*10000 + m*100 + d`, guarded by validity; `none` stands
for the raised exception on an invalid date or month value. -/

/-- Strictly monotone encoding of a valid calendar date. -/
def dateKey (y m d : Int) : Int := y * 10000 + m * 100 + d

/-- The dates accepted by `datetime.strptime(_, "%d/%m/%Y")`. -/
def validDate (y m d : Int) : Bool :=
  1 ≤ y ∧ y ≤ 9999 ∧ 1 ≤ m ∧ m ≤ 12 ∧ 1 ≤ d ∧ d ≤ daysInMonth y m

/-- The `if not d: d = monthrange(yr, mi)[1]` pattern of `is_before` /
`is_between`: a missing (`None`) or zero day is replaced by the last day
of the month (`monthrange` raises unless `1 ≤ mi ≤ 12`). -/
def resolveDay (yr : Int) (mi : Int) : Option Int → Option Int
  | Option.none =>
      if 1 ≤ mi ∧ mi ≤ 12 then some (daysInMonth yr mi) else Option.none
  | some dv =>
      if dv = 0 then
        (if 1 ≤ mi ∧ mi ≤ 12 then some (daysInMonth yr mi) else Option.none)
      else some dv

/-- `is_since(y, sy, m, d, sm, sd)` (defaults `m=1, d=1, sm=1, sd=1`):
true when the since date is on or before the target date. -/
def is_since (y sy : Int) (m : Val) (d : Int) (sm : Val) (sd : Int) :
    Option Bool := do
  let mi ← month_to_int m
  let smi ← month_to_int sm
  if validDate sy smi sd ∧ validDate y mi d then
    return decide (dateKey sy smi sd ≤ dateKey y mi d)
  else Option.none

/-- `is_before(y, by, m, d, bm, bd)` (defaults `m=12, d=None, bm=12,
bd=None`): true when the target date is on or before the before date.
Falsy day arguments default to the last day of the respective month. -/
def is_before (y by_ : Int) (m : Val) (d : Option Int) (bm : Val)
    (bd : Option Int) : Option Bool := do
  let mi ← month_to_int m
  let dd ← resolveDay y mi d
  let bmi ← month_to_int bm
  let bdd ← resolveDay by_ bmi bd
  if validDate by_ bmi bdd ∧ validDate y mi dd then
    return decide (dateKey y mi dd ≤ dateKey by_ bmi bdd)
  else Option.none

/-- `is_between(y, sy, by, m, d, sm, sd, bm, bd)` (defaults `m=1, d=1,
sm=1, sd=1, bm=12, bd=None`): resolves a falsy `bd` to the last day of the
before month, then evaluates `is_since(...) and is_before(...)` with
Python's short-circuit (`is_before` is not evaluated when `is_since` is
false). -/
def is_between (y sy by_ : Int) (m : Val) (d : Int) (sm : Val) (sd : Int)
    (bm : Val) (bd : Option Int) : Option Bool := do
  let bmi ← month_to_int bm
  let bdd ← resolveDay by_ bmi bd
  let s ← is_since y sy m d sm sd
  if s then is_before y by_ m (some d) bm (some bdd) else return false

/-! ## Generic Python-semantics helpers -/

/-- Python truthiness of a value. -/
def Val.truthy : Val → Bool
  | .none => false
  | .str s => s ≠ ""
  | .int n => n ≠ 0
  | .bool b => b
  | .date _ _ _ => true
  | .list xs => xs ≠ []
  | .dict d => d ≠ []

/-- Whether a value is hashable (may enter a Python set / be a dict key):
lists and dicts are not. -/
def Val.hashable : Val → Bool
  | .list _ => false
  | .dict _ => false
  | _ => true

/-- Whether a value is a Python `str`. -/
def Val.isStr : Val → Bool
  | .str _ => true
  | _ => false

/-- Lowercase a string value, identity otherwise (used only on strings). -/
def Val.lowerV : Val → Val
  | .str s => .str (pyLower s)
  | v => v

/-- `for x in v`: the element sequence of an iterable value (a string
iterates its one-character substrings, a dict its keys); non-iterables
raise `TypeError`. -/
def pyIterate : Val → Except PyErr (List Val)
  | .list xs => .ok xs
  | .str s => .ok (s.data.map (fun c => .str (String.mk [c])))
  | .dict d => .ok (d.map (fun p => .str p.1))
  | _ => .error .typeError

/-- Python `set(v)`: the iterated elements, requiring each to be hashable
(`TypeError` otherwise).  Only membership of the result is ever used, so
deduplication is irrelevant. -/
def pySetVals (v : Val) : Except PyErr (List Val) := do
  let xs ← pyIterate v
  if xs.all Val.hashable then return xs else throw .typeError

/-- Lift an `Option` to `Except`, raising `e` on `none`. -/
def liftO (o : Option α) (e : PyErr) : Except PyErr α :=
  match o with
  | some a => .ok a
  | Option.none => .error e

/-- A `datetime.date` object: a valid (year, month, day) triple. -/
abbrev PyDate := Int × Int × Int

/-- Total order key of a `datetime.date` (lexicographic on y, m, d). -/
def pdKey (p : PyDate) : Int := dateKey p.1 p.2.1 p.2.2

/-- `datetime.date(y, m, d)` applied to document values: all three must be
ints (`TypeError` otherwise) forming a valid date (`ValueError` otherwise). -/
def mkPyDate (yv mv dv : Val) : Except PyErr PyDate :=
  match yv, mv, dv with
  | .int y, .int m, .int d =>
      if validDate y m d then .ok (y, m, d) else .error .valueError
  | _, _, _ => .error .typeError

/-- One insertion step of the stable insertion sort modelling Python's
stable `list.sort`/`sorted`: the incoming element `x` (earlier in the
original list) is placed before the first element it compares
less-or-equal to, hence before equal elements. -/
def pyInsert (le : α → α → Bool) (x : α) : List α → List α
  | [] => [x]
  | y :: ys => if le x y then x :: y :: ys else y :: pyInsert le x ys

/-- Python's stable sort with respect to the boolean comparison `le`
(`le a b` = "a may come before b").  A stable sort is uniquely determined
by the comparison, so insertion sort is an exact model of `list.sort`. -/
def pySortBy (le : α → α → Bool) (l : List α) : List α :=
  l.foldr (pyInsert le) []

/-- The `SHORT_MONTH_NAMES` tuple of `regolith/tools.py` (index 0 holds
`None`). -/
def SHORT_MONTH_NAMES : List Val :=
  [.none, .str "Jan", .str "Feb", .str "Mar", .str "Apr", .str "May",
   .str "Jun", .str "Jul", .str "Aug", .str "Sept", .str "Oct", .str "Nov",
   .str "Dec"]

/-- Python tuple indexing `SHORT_MONTH_NAMES[n]`, with negative-index
wraparound (length 13) and `IndexError` out of range. -/
def shortMonthName (n : Int) : Except PyErr Val :=
  if 0 ≤ n ∧ n < 13 then liftO (SHORT_MONTH_NAMES.get? n.toNat) .indexError
  else if -13 ≤ n ∧ n < 0 then
    liftO (SHORT_MONTH_NAMES.get? (n + 13).toNat) .indexError
  else .error .indexError


/-- Monadic map over `Except` (explicit recursion, used to embed Python
list comprehensions whose element expressions may raise). -/
def eMapM (f : α → Except PyErr β) : List α → Except PyErr (List β)
  | [] => .ok []
  | a :: l => do
      let b ← f a
      let r ← eMapM f l
      return b :: r

/-! ## `fuzzy_retrieval` (`regolith/tools.py`) -/

/-- The `returns` list gathered by `fuzzy_retrieval` for one document:
`doc.get(k, [])` for each candidate field, a non-list value wrapped as a
one-element list, all concatenated in field order. -/
def gatherReturns (sources : List String) (doc : Doc) : List Val :=
  sources.foldr
    (fun k acc =>
      (match Doc.getD doc k (.list []) with
       | .list xs => xs
       | v => [v]) ++ acc) []

/-- `fuzzy_retrieval(documents, sources, value, case_sensitive)`: scan the
documents in order; for each, gather the candidate values and test
membership of `value`.  In the case-sensitive branch the gathered values
are put in a `frozenset`, which raises `TypeError` on an unhashable
(list/dict) gathered value or target.  In the case-insensitive branch only
string values are kept (lowercased) and only a string target is tested;
`ok none` is the not-found sentinel. -/
def fuzzy_retrieval (documents : List Doc) (sources : List String)
    (value : Val) (case_sensitive : Bool) : Except PyErr (Option Doc) :=
  match documents with
  | [] => .ok Option.none
  | doc :: rest =>
      let returns := gatherReturns sources doc
      if case_sensitive then
        if returns.all Val.hashable then
          if value.hashable then
            if returns.contains value then .ok (some doc)
            else fuzzy_retrieval rest sources value case_sensitive
          else .error .typeError
        else .error .typeError
      else
        let lowered := (returns.filter Val.isStr).map Val.lowerV
        if value.isStr then
          if lowered.contains value.lowerV then .ok (some doc)
          else fuzzy_retrieval rest sources value case_sensitive
        else fuzzy_retrieval rest sources value case_sensitive

/-! ## `merge_collections` (`regolith/tools.py`) -/

/-- Modelled from the spec: a `ChainDB` (`regolith/chained_db.py`, not under
`src/`) is the lazy two-layer overlay of an inferior and a superior
document; `merge_collections` only constructs them, so the model records
the two layers. -/
structure ChainDB where
  inferior : Doc
  superior : Doc
  deriving DecidableEq

/-- Modelled from the spec: key access on a `ChainDB` view checks the
superior layer first, falls through to the inferior layer, and merges
nested mappings recursively (§4.3 of the spec). -/
def ChainDB.getView (c : ChainDB) (k : String) : Option Val :=
  match Doc.get? c.superior k, Doc.get? c.inferior k with
  | some (.dict ds), some (.dict di) =>
      some (.dict (di.foldl (fun acc p =>
        if (alookup acc p.1).isSome then acc else acc ++ [p]) ds))
  | some v, _ => some v
  | Option.none, some v => some v
  | Option.none, Option.none => Option.none

/-- `d[k] = v` on a Python dict with arbitrary (hashable) keys: update in
place when present, else append. -/
def pyUpsert [DecidableEq α] (m : List (α × β)) (k : α) (v : β) :
    List (α × β) :=
  match m with
  | [] => [(k, v)]
  | (k', v') :: rest =>
      if k' = k then (k, v) :: rest else (k', v') :: pyUpsert rest k v

/-- The `adict = {}; for k in a: adict[k.get("_id")] = k` pattern: a dict
from `_id` value to document, last document with a given `_id` winning;
`TypeError` on an unhashable `_id`. -/
def buildIdDict (docs : List Doc) (acc : List (Val × Doc)) :
    Except PyErr (List (Val × Doc)) :=
  match docs with
  | [] => .ok acc
  | d :: rest =>
      let k := Doc.getD d "_id" .none
      if k.hashable then buildIdDict rest (pyUpsert acc k d)
      else .error .typeError

/-- The `for k, v in b_for_a.items(): chained[k] = ChainDB(adict[k], bdict[v])`
loop. -/
def buildChained (adict bdict : List (Val × Doc)) :
    List (Val × Val) → List (Val × ChainDB) →
    Except PyErr (List (Val × ChainDB))
  | [], acc => .ok acc
  | p :: rest, acc =>
      match alookup adict p.1, alookup bdict p.2 with
      | some ad, some bd =>
          buildChained adict bdict rest (pyUpsert acc p.1 (ChainDB.mk ad bd))
      | _, _ => .error .keyError

/-- `merge_collections(a, b, target_id)` from `regolith/tools.py` (the
second, surviving definition): index both collections by `_id`, collect
`b_for_a[k] = kk` for every superior entry `(kk, v)` with
`v.get(target_id, "") == k`, and emit one `ChainDB(adict[k], bdict[kk])`
per matched inferior id, in inferior-id order. -/
def merge_collections (a b : List Doc) (target_id : String) :
    Except PyErr (List ChainDB) := do
  let adict ← buildIdDict a []
  let bdict ← buildIdDict b []
  let bForA := adict.foldl
    (fun m p =>
      bdict.foldl
        (fun m' q =>
          if Doc.getD q.2 target_id (.str "") = p.1 then pyUpsert m' p.1 q.1
          else m') m) []
  let chained ← buildChained adict bdict bForA []
  return chained.map Prod.snd

/-! ## `filter_publications` (`regolith/tools.py`) -/

/-- Modelled from the spec: `doc_date_key` (`regolith/sorters.py`, not
under `src/`) — the comparable composite "most recent date" sort key of a
publication document, the sortable encoding `year + month/100 + day/10000`
of its date fields (§4.1, §4.4 and §6 of the spec), months canonicalized
through the month table, absent fields defaulting (month to January, day
to 0 as in `date_to_sort_key`). -/
def doc_date_key (d : Doc) : ℚ :=
  let y := (pyToInt (Doc.getD d "year" (.int 0))).getD 0
  let m := (month_to_int (Doc.getD d "month" (.int 1))).getD 1
  let dd := (pyToInt (Doc.getD d "day" (.int 0))).getD 0
  (y : ℚ) + (m : ℚ) / 100 + (dd : ℚ) / 10000

/-- The sort comparison of `pubs.sort(key=doc_date_key, reverse=reverse)`. -/
def pubLe (reverse : Bool) (p q : Doc) : Bool :=
  if reverse then doc_date_key q ≤ doc_date_key p
  else doc_date_key p ≤ doc_date_key q

/-- `"\\textbf{" + a + "}"`: wrapping one matched author value in the
emphasis marker; string concatenation raises `TypeError` on a non-string
value. -/
def boldWrap : Val → Except PyErr Val
  | .str s => .ok (.str ("\\textbf\x7b" ++ s ++ "\x7d"))
  | _ => .error .typeError

/-- The `bold_self` loop: each author value that is a member of the target
set is wrapped in the emphasis marker (set membership raises `TypeError`
on an unhashable element). -/
def boldSelf (authors : List Val) : List Val → Except PyErr (List Val)
  | [] => .ok []
  | a :: rest => do
      if ¬ a.hashable then throw .typeError
      else if authors.contains a then do
        let b ← boldWrap a
        let r ← boldSelf authors rest
        return b :: r
      else do
        let r ← boldSelf authors rest
        return a :: r

/-- The per-publication date gate of `filter_publications` when `since` is
given: `date(int(pub.get("year")), month_to_int(pub.get("month", 12)),
int(pub.get("day", 28)))`, kept when it is strictly after `since` and (when
`before` is given) strictly before `before`. -/
def pubDateKeep (pub : Doc) (sinceD : PyDate) (before : Option PyDate) :
    Except PyErr Bool := do
  let yv ← liftO (pyToInt (Doc.getD pub "year" .none)) .typeError
  let mv ← liftO (month_to_int (Doc.getD pub "month" (.int 12))) .valueError
  let dv ← liftO (pyToInt (Doc.getD pub "day" (.int 28))) .typeError
  if validDate yv mv dv then
    if dateKey yv mv dv > pdKey sinceD then
      match before with
      | Option.none => return true
      | some bv => return decide (dateKey yv mv dv < pdKey bv)
    else return false
  else throw .valueError

/-- The main loop of `filter_publications`: relevance gate on the
author∪editor set, deep copy, optional bolding of the author list, then
the optional date gate; survivors are accumulated in input order. -/
def filterPubsLoop (authors : List Val) (bold : Bool)
    (since before : Option PyDate) : List Doc → Except PyErr (List Doc)
  | [] => .ok []
  | pub :: rest => do
      let avs ← pySetVals (Doc.getD pub "author" (.list []))
      let evs ← pySetVals (Doc.getD pub "editor" (.list []))
      if ¬ (avs ++ evs).any (fun x => authors.contains x) then
        filterPubsLoop authors bold since before rest
      else do
        let pub2 ←
          (if bold then do
            let al ← Doc.getE pub "author"
            let as_ ← pyIterate al
            let bs ← boldSelf authors as_
            pure (Doc.set pub "author" (.list bs))
          else pure pub)
        match since with
        | Option.none => do
            let r ← filterPubsLoop authors bold since before rest
            return pub2 :: r
        | some sv => do
            let keep ← pubDateKeep pub2 sv before
            if keep then do
              let r ← filterPubsLoop authors bold since before rest
              return pub2 :: r
            else filterPubsLoop authors bold since before rest

/-- `filter_publications(citations, authors, reverse, bold, since,
before)`: the gate/normalize loop followed by the stable sort on
`doc_date_key` (`reverse=False` sorts ascending). -/
def filter_publications (citations : List Doc) (authors : List Val)
    (reverse bold : Bool) (since before : Option PyDate) :
    Except PyErr (List Doc) := do
  let pubs ← filterPubsLoop authors bold since before citations
  return pySortBy (pubLe reverse) pubs

/-! ## `filter_service`, `filter_patents`, `filter_licenses`
(`regolith/tools.py`)

These filters take only shallow copies (`copy(ppl)`, `copy(p.get(...))`)
or no copy at all, and assign into the documents (`i['month'] = ...`,
`p['service'] = ...`, `i['events'] = ...`), so they mutate the caller's
documents in place.  Each is embedded as a function returning both its
Python return value and the post-call state of the mutated input
collection.  `today` is the ambient `date.today()`. -/

/-- The repeated month-normalization block: when `i['month']` is falsy the
display month comes from `i.get("begin_month", 0)`, otherwise from
`i['month']`; either is canonicalized by `month_to_int` and written back
as the `SHORT_MONTH_NAMES` entry. -/
def normalizeItemMonth (i : Doc) : Except PyErr Doc := do
  if ¬ (Doc.getD i "month" .none).truthy then do
    let mi ← liftO (month_to_int (Doc.getD i "begin_month" (.int 0)))
      .valueError
    let nm ← shortMonthName mi
    return Doc.set i "month" nm
  else do
    let cur ← Doc.getE i "month"
    let mi ← liftO (month_to_int cur) .valueError
    let nm ← shortMonthName mi
    return Doc.set i "month" nm

/-- The service/facilities/activities effective end date: the `year` field
if truthy, else the `end_year` field if truthy, else the current year;
combined with `end_month` (default 12) and `end_day` (default 28) through
`datetime.date`. -/
def itemEndDate (today : PyDate) (i : Doc) : Except PyErr PyDate :=
  let eyV :=
    if (Doc.getD i "year" .none).truthy then Doc.getD i "year" .none
    else if (Doc.getD i "end_year" .none).truthy then
      Doc.getD i "end_year" .none
    else .int today.1
  mkPyDate eyV (Doc.getD i "end_month" (.int 12))
    (Doc.getD i "end_day" (.int 28))

/-- The patents/licenses effective end date: `end_year` if truthy else the
current year, with `end_month` (default 12) and `end_day` (default 28). -/
def patentEndDate (today : PyDate) (i : Doc) : Except PyErr PyDate :=
  let eyV :=
    if (Doc.getD i "end_year" .none).truthy then Doc.getD i "end_year" .none
    else .int today.1
  mkPyDate eyV (Doc.getD i "end_month" (.int 12))
    (Doc.getD i "end_day" (.int 28))

/-- The inner loop of `filter_service`: keep the type-matching entries
whose end date is on or after `begin_period`, each with its `month` field
normalized in place. -/
def serviceItems (today : PyDate) (bp : PyDate) (ty : Val) :
    List Val → Except PyErr (List Doc)
  | [] => .ok []
  | v :: vs => do
      let i ← (match v with
        | .dict d => pure d
        | _ => throw .attributeError)
      if Doc.getD i "type" .none = ty then do
        let ed ← itemEndDate today i
        if pdKey ed ≥ pdKey bp then do
          let i' ← normalizeItemMonth i
          let rest ← serviceItems today bp ty vs
          return i' :: rest
        else serviceItems today bp ty vs
      else serviceItems today bp ty vs

/-- `filter_service(ppl, begin_period, type)`: for every person `p` the
loop assigns `p['service'] = myservice` (mutating the caller's document)
and returns the persons whose filtered service list is nonempty.  Returns
(Python return value, post-call state of `ppl`). -/
def filter_service (today : PyDate) (bp : PyDate) (ty : Val) :
    List Doc → Except PyErr (List Doc × List Doc)
  | [] => .ok ([], [])
  | p :: ps => do
      let items ← pyIterate (Doc.getD p "service" (.list []))
      let kept ← serviceItems today bp ty items
      let p' := Doc.set p "service" (.list (kept.map Val.dict))
      let pr ← filter_service today bp ty ps
      return ((if kept.isEmpty then pr.1 else p' :: pr.1), p' :: pr.2)

/-- Sort key `date(event["year"], event["month"], event.get("day", 28))`
of a nested event. -/
def eventKeyDate (e : Val) : Except PyErr PyDate := do
  let ed ← (match e with
    | .dict d => pure d
    | _ => throw .typeError)
  let yv ← Doc.getE ed "year"
  let mv ← Doc.getE ed "month"
  mkPyDate yv mv (Doc.getD ed "day" (.int 28))

/-- Sort key `date(event["year"], event["month"], 28)` of a nested event
(the no-window branch hardcodes day 28). -/
def eventKeyDate28 (e : Val) : Except PyErr PyDate := do
  let ed ← (match e with
    | .dict d => pure d
    | _ => throw .typeError)
  let yv ← Doc.getE ed "year"
  let mv ← Doc.getE ed "month"
  mkPyDate yv mv (.int 28)

/-- The status/type/inventor gate shared by `filter_patents` and
`filter_licenses`: status in the `["active", "pending"]` allow-list,
`i.get("type") in kind` (Python substring containment — `TypeError` on a
non-string type), and the fuzzily resolved target person among the fuzzily
resolved inventors (`None`s compare equal). -/
def patentGate (people : List Doc) (target : Val) (kind : String)
    (i : Doc) : Except PyErr Bool := do
  if [Val.str "active", Val.str "pending"].contains
      (Doc.getD i "status" .none) then do
    let tOk ← (match Doc.getD i "type" .none with
      | .str t => pure (decide (t.data <:+: kind.data))
      | _ => throw .typeError)
    if tOk then do
      let invsV ← Doc.getE i "inventors"
      let invs ← pyIterate invsV
      let inventors ← eMapM
        (fun inv => fuzzy_retrieval people ["aka", "name", "_id"] inv false)
        invs
      let person ← fuzzy_retrieval people ["aka", "name", "_id"] target false
      return inventors.contains person
    else return false
  else return false

/-- One `filter_patents` loop step: (was the document appended?, the
document's post-call state). -/
def patentStep (people : List Doc) (target : Val) (since : Option PyDate)
    (today : PyDate) (i : Doc) : Except PyErr (Bool × Doc) := do
  let g ← patentGate people target "patent" i
  if g then do
    let ed ← patentEndDate today i
    match since with
    | some s =>
        if pdKey ed ≥ pdKey s then do
          let i1 ← normalizeItemMonth i
          let evs ← pyIterate (← Doc.getE i1 "events")
          let keyed ← eMapM (fun e => do
            let k ← eventKeyDate e
            pure (e, k)) evs
          let surv := keyed.filter (fun ek => pdKey ek.2 > pdKey s)
          let sorted := pySortBy (fun a b => pdKey a.2 ≤ pdKey b.2) surv
          return (true, Doc.set i1 "events" (.list (sorted.map Prod.fst)))
        else return (false, i)
    | Option.none => do
        let evs ← pyIterate (← Doc.getE i "events")
        let keyed ← eMapM (fun e => do
          let k ← eventKeyDate28 e
          pure (e, k)) evs
        let sorted := pySortBy (fun a b => pdKey a.2 ≤ pdKey b.2) keyed
        return (true, Doc.set i "events" (.list (sorted.map Prod.fst)))
  else return (false, i)

/-- `filter_patents(patentscoll, people, target, since, before)` (the
`before` parameter is accepted but never read): returns (Python return
value, post-call state of `patentscoll`). -/
def filter_patents (people : List Doc) (target : Val)
    (since : Option PyDate) (today : PyDate) :
    List Doc → Except PyErr (List Doc × List Doc)
  | [] => .ok ([], [])
  | i :: rest => do
      let st ← patentStep people target since today i
      let pr ← filter_patents people target since today rest
      return ((if st.1 then st.2 :: pr.1 else pr.1), st.2 :: pr.2)

/-- The summation half of `sum(...)`: left fold of `+` over the gathered
amount values, `TypeError` on a missing/non-numeric amount. -/
def addAmounts (acc : Int) : List Val → Except PyErr Int
  | [] => .ok acc
  | v :: rest =>
      match v with
      | .int n => addAmounts (acc + n) rest
      | .bool b => addAmounts (acc + (if b then 1 else 0)) rest
      | _ => .error .typeError

/-- `sum([event.get("amount") for event in evs])`: the comprehension is
materialized first (`AttributeError` on a non-dict event), then summed
(`TypeError` on a missing/non-numeric amount). -/
def sumAmounts (evs : List Val) : Except PyErr Int := do
  let vals ← eMapM (fun e => match e with
    | .dict d => pure (Doc.getD d "amount" .none)
    | _ => throw .attributeError) evs
  addAmounts 0 vals

/-- One `filter_licenses` loop step.  In the `since` branch the attached
`total_amount` is the sum over ALL events, computed before the events list
is restricted to the window.  In the no-`since` branch the code reads the
local variable `events` before any assignment to it, raising `NameError`
(no earlier assignment can exist when `since` is falsy, since both
assignments sit in branches reached after this line). -/
def licenseStep (people : List Doc) (target : Val) (since : Option PyDate)
    (today : PyDate) (i : Doc) : Except PyErr (Bool × Doc) := do
  let g ← patentGate people target "license" i
  if g then do
    let ed ← patentEndDate today i
    match since with
    | some s =>
        if pdKey ed ≥ pdKey s then do
          let i1 ← normalizeItemMonth i
          let allEvs ← pyIterate (← Doc.getE i1 "events")
          let total ← sumAmounts allEvs
          let i2 := Doc.set i1 "total_amount" (.int total)
          let evs ← pyIterate (← Doc.getE i2 "events")
          let keyed ← eMapM (fun e => do
            let k ← eventKeyDate e
            pure (e, k)) evs
          let surv := keyed.filter (fun ek => pdKey ek.2 > pdKey s)
          let sorted := pySortBy (fun a b => pdKey a.2 ≤ pdKey b.2) surv
          return (true, Doc.set i2 "events" (.list (sorted.map Prod.fst)))
        else return (false, i)
    | Option.none => throw .nameError
  else return (false, i)

/-- `filter_licenses(patentscoll, people, target, since, before)` (the
`before` parameter is accepted but never read): returns (Python return
value, post-call state of `patentscoll`). -/
def filter_licenses (people : List Doc) (target : Val)
    (since : Option PyDate) (today : PyDate) :
    List Doc → Except PyErr (List Doc × List Doc)
  | [] => .ok ([], [])
  | i :: rest => do
      let st ← licenseStep people target since today i
      let pr ← filter_licenses people target since today rest
      return ((if st.1 then st.2 :: pr.1 else pr.1), st.2 :: pr.2)

/-! ## `filter_presentations` (`regolith/tools.py`) -/

/-- `authorids`: the `_id` of every non-`None` fuzzily-resolved author
(`KeyError` if a resolved person document lacks `_id`). -/
def authorIds : List (Option Doc) → Except PyErr (List Val)
  | [] => .ok []
  | Option.none :: rest => authorIds rest
  | some d :: rest => do
      let idv ← Doc.getE d "_id"
      let r ← authorIds rest
      return idv :: r

/-- The `pres["authors"]` list: a bare string is wrapped as a one-element
list, anything else is iterated. -/
def presAuthorsList (pres : Doc) : Except PyErr (List Val) := do
  let v ← Doc.getE pres "authors"
  match v with
  | .str s => pure [Val.str s]
  | other => pyIterate other

/-- Relevance stage of `filter_presentations`: keep a presentation exactly
when the hardcoded group member `"sbillinge"` is among the `_id`s of its
fuzzily-resolved authors.  Note this stage takes no
types/since/before/statuses parameter at all. -/
def presStage1 (people : List Doc) : List Doc → Except PyErr (List Doc)
  | [] => .ok []
  | pres :: rest => do
      let pauthors ← presAuthorsList pres
      let resolved ← eMapM
        (fun a => fuzzy_retrieval people ["aka", "name", "_id"] a false)
        pauthors
      let ids ← authorIds resolved
      let r ← presStage1 people rest
      return (if ids.contains (.str "sbillinge") then pres :: r else r)

/-- Status stage: `pres["status"] in statuses or "all" in statuses`. -/
def presStage2 (statuses : List Val) : List Doc → Except PyErr (List Doc)
  | [] => .ok []
  | pres :: rest => do
      let st ← Doc.getE pres "status"
      let r ← presStage2 statuses rest
      return (if statuses.contains st || statuses.contains (.str "all")
        then pres :: r else r)

/-- Type stage: `pres["type"] in types or "all" in types`. -/
def presStage3 (types : List Val) : List Doc → Except PyErr (List Doc)
  | [] => .ok []
  | pres :: rest => do
      let tv ← Doc.getE pres "type"
      let r ← presStage3 types rest
      return (if types.contains tv || types.contains (.str "all")
        then pres :: r else r)

/-- `date(pres["begin_year"], month_to_int(pres["begin_month"]),
int(pres["begin_day"]))`. -/
def presBeginDate (pres : Doc) : Except PyErr PyDate := do
  let y ← Doc.getE pres "begin_year"
  let mV ← Doc.getE pres "begin_month"
  let mi ← liftO (month_to_int mV) .valueError
  let dV ← Doc.getE pres "begin_day"
  let di ← liftO (pyToInt dV) .valueError
  mkPyDate y (.int mi) (.int di)

/-- Date window stage for `since` (strictly-after test, only when a bound
is given). -/
def presStage4 : Option PyDate → List Doc → Except PyErr (List Doc)
  | _, [] => .ok []
  | Option.none, pres :: rest => do
      let r ← presStage4 Option.none rest
      return pres :: r
  | some s, pres :: rest => do
      let pd ← presBeginDate pres
      let r ← presStage4 (some s) rest
      return (if pdKey pd > pdKey s then pres :: r else r)

/-- Date window stage for `before` (strictly-before test, only when a
bound is given). -/
def presStage5 : Option PyDate → List Doc → Except PyErr (List Doc)
  | _, [] => .ok []
  | Option.none, pres :: rest => do
      let r ← presStage5 Option.none rest
      return pres :: r
  | some b, pres :: rest => do
      let pd ← presBeginDate pres
      let r ← presStage5 (some b) rest
      return (if pdKey pd < pdKey b then pres :: r else r)

/-- `number_suffix(n)`: the ordinal suffix, `""` for non-numbers. -/
def numberSuffix (v : Val) : Val :=
  let suf : Int → String := fun n =>
    if 10 < n ∧ n < 20 then "th"
    else match n % 10 with
      | 1 => "st"
      | 2 => "nd"
      | 3 => "rd"
      | _ => "th"
  match v with
  | .int n => .str (suf n)
  | .bool b => .str (suf (if b then 1 else 0))
  | _ => .str ""

/-- The pre-institution half of the per-presentation normalization pass of
`filter_presentations`: resolve author display names, canonicalize
`begin_month`, attach the `date` object and the day suffixes. -/
def buildOneCore (people : List Doc) (pres : Doc) : Except PyErr Doc := do
  let pauthors ← presAuthorsList pres
  let names ← eMapM (fun a => do
    let r ← fuzzy_retrieval people ["aka", "name", "_id"] a false
    match r with
    | Option.none => pure a
    | some d => Doc.getE d "name") pauthors
  let strs ← eMapM (fun v => match v with
    | .str s => pure s
    | _ => throw PyErr.typeError) names
  let p1 := Doc.set pres "authors" (.str (String.intercalate ", " strs))
  let bmV ← Doc.getE p1 "begin_month"
  let bmi ← liftO (pyToInt bmV) .valueError
  let p2 := Doc.set p1 "begin_month" (.int bmi)
  let byV ← Doc.getE p2 "begin_year"
  let bdV ← Doc.getE p2 "begin_day"
  let pd ← mkPyDate byV (.int bmi) bdV
  let p3 := Doc.set p2 "date" (.date pd.1 pd.2.1 pd.2.2)
  let p4 := Doc.set p3 "begin_day_suffix"
    (numberSuffix (Doc.getD p3 "begin_day" .none))
  pure (Doc.set p4 "end_day_suffix"
    (numberSuffix (Doc.getD p4 "end_day" .none)))

/-- The `except:` branch of the department lookup: the warning `print`
formats `pres["department"]` and `pres["institution"]["_id"]` BEFORE the
placeholder is assigned, so a resolved institution document lacking
`"_id"` raises `KeyError` inside the handler (uncaught) instead of
degrading to the placeholder. -/
def deptPlaceholder (p6 instDoc : Doc) (deptV : Val) : Except PyErr Doc := do
  let _ ← Doc.getE instDoc "_id"
  pure (Doc.set p6 "department" (.dict [("name", deptV)]))

def buildOneDeptLook (p6 instDoc : Doc) (deptV : Val) :
    Option Val → Except PyErr Doc
  | some dv => pure (Doc.set p6 "department" dv)
  | Option.none => deptPlaceholder p6 instDoc deptV

def buildOneDept (p6 instDoc : Doc) : Val → Option Val → Except PyErr Doc
  | Val.str ds, some (Val.dict deps) =>
      buildOneDeptLook p6 instDoc (Val.str ds) (alookup deps ds)
  | deptV, _ => deptPlaceholder p6 instDoc deptV

def buildOneFz2 (p6 instDoc : Doc) : Option Val → Except PyErr Doc
  | Option.none => pure p6
  | some deptV =>
      buildOneDept p6 instDoc deptV (Doc.get? instDoc "departments")

def buildOneFz (p5 : Doc) : Option Doc → Except PyErr Doc
  | Option.none => throw PyErr.systemExit
  | some instDoc =>
      buildOneFz2 (Doc.set p5 "institution" (.dict instDoc)) instDoc
        (Doc.get? (Doc.set p5 "institution" (.dict instDoc)) "department")

def buildOneInstGo (insts : List Doc) (p5 : Doc) :
    Option Val → Except PyErr Doc
  | Option.none => pure p5
  | some instV => do
      let r ← fuzzy_retrieval insts ["aka", "name", "_id"] instV false
      buildOneFz p5 r

def buildOneInst (insts : List Doc) (p5 : Doc) : Except PyErr Doc :=
  buildOneInstGo insts p5 (Doc.get? p5 "institution")

/-- The per-presentation normalization pass of `filter_presentations`. -/
def buildOne (people insts : List Doc) (pres : Doc) : Except PyErr Doc := do
  let p5 ← buildOneCore people pres
  buildOneInst insts p5

/-- Sort key `k.get("date", None)` of a built presentation (every built
presentation carries a `date` object; the fallback 0 is unreachable). -/
def presDateKeyV (p : Doc) : Int :=
  match Doc.getD p "date" .none with
  | .date y m d => dateKey y m d
  | _ => 0

/-- `filter_presentations(people, presentations, institutions, types,
since, before, statuses)`: the four sequential gates, the normalization
pass (fatal on an unresolvable institution), and the stable descending
sort on the attached date.  The deep copy at entry makes the whole
function pure in the caller's collections. -/
def filter_presentations (people presentations institutions : List Doc)
    (types : List Val) (since before : Option PyDate)
    (statuses : List Val) : Except PyErr (List Doc) := do
  let s1 ← presStage1 people presentations
  let s2 ← presStage2 statuses s1
  let s3 ← presStage3 types s2
  let s4 ← presStage4 since s3
  let s5 ← presStage5 before s4
  let built ← eMapM (buildOne people institutions) s5
  if built.isEmpty then return built
  else return pySortBy (fun a b => presDateKeyV b ≤ presDateKeyV a) built

/-! ## Shared helper lemmas -/

theorem lowerChar_notDigit (a c : Char) (h : lowerChar a = c)
    (hc : 97 ≤ c.toNat) : isAsciiDigit a = false ∧ a ≠ '-' ∧ a ≠ '+' := by
  unfold lowerChar at h
  by_cases hg : 65 ≤ a.toNat ∧ a.toNat ≤ 90
  · rw [if_pos hg] at h
    refine ⟨?_, ?_, ?_⟩
    · simp only [isAsciiDigit, decide_eq_false_iff_not, not_and, not_le]
      omega
    · rintro rfl; revert hg; decide
    · rintro rfl; revert hg; decide
  · rw [if_neg hg] at h
    subst h
    refine ⟨?_, ?_, ?_⟩
    · simp only [isAsciiDigit, decide_eq_false_iff_not, not_and, not_le]
      omega
    · rintro rfl; revert hc; decide
    · rintro rfl; revert hc; decide

theorem months_lookup_self : ∀ p ∈ MONTHS, MONTHS.lookup p.1 = some p.2 := by
  decide

theorem months_head_lower : ∀ p ∈ MONTHS, p.1 ≠ "" →
    97 ≤ p.1.data.headI.toNat := by decide

theorem string_data_cons_of_ne (nm : String) (hne : nm ≠ "") :
    ∃ c cs, nm.data = c :: cs := by
  cases hd : nm.data with
  | nil => exact absurd (by cases nm; simp_all) hne
  | cons c cs => exact ⟨c, cs, rfl⟩

theorem pyParseInt_none_of_lower_name (s nm : String) (h : pyLower s = nm)
    (hne : nm ≠ "") (hh : 97 ≤ nm.data.headI.toNat) :
    pyParseInt s = Option.none := by
  obtain ⟨c, cs, hd⟩ := string_data_cons_of_ne nm hne
  have hmap : s.data.map lowerChar = nm.data := congrArg String.data h
  cases hs : s.data with
  | nil => rw [hs, hd] at hmap; simp at hmap
  | cons a as =>
      rw [hs, hd] at hmap
      simp only [List.map_cons, List.cons.injEq] at hmap
      obtain ⟨h1, _⟩ := hmap
      have hc : 97 ≤ c.toNat := by rw [hd] at hh; simpa using hh
      obtain ⟨hdig, hminus, hplus⟩ := lowerChar_notDigit a c h1 hc
      unfold pyParseInt digitsToNat
      rw [hs]
      simp [hminus, hplus, hdig]

theorem month_to_int_of_name (s nm : String) (k : Int)
    (hmem : (nm, k) ∈ MONTHS) (hne : nm ≠ "") (hlow : pyLower s = nm) :
    month_to_int (.str s) = some k := by
  have hp : pyParseInt s = Option.none :=
    pyParseInt_none_of_lower_name s nm hlow hne
      (months_head_lower (nm, k) hmem hne)
  simp only [month_to_int]
  rw [hp, hlow]
  exact months_lookup_self (nm, k) hmem

/-- C7: every valid representation of a month — an integer, the numeric
string, or any case variant of a full name or dotted/undotted
abbreviation in the `MONTHS` table — is taken by `month_to_int` to that
month's integer, and the empty string maps to 1. -/
theorem c7_month_to_int_representations :
    (∀ n : Int, month_to_int (.int n) = some n) ∧
    (∀ k : Int, 1 ≤ k → k ≤ 12 → month_to_int (.str (toString k)) = some k) ∧
    (∀ (s nm : String) (k : Int), (nm, k) ∈ MONTHS → nm ≠ "" →
      pyLower s = nm → month_to_int (.str s) = some k) ∧
    month_to_int (.str "") = some 1 := by
  refine ⟨fun n => rfl, ?_, month_to_int_of_name, rfl⟩
  intro k h1 h2
  interval_cases k <;> rfl

/-- C7 witness: concrete representations of January, September (dotted
abbreviation), July (integer) and December (numeric string). -/
theorem c7_month_to_int_representations_witness :
    month_to_int (.str "JANUARY") = some 1 ∧
    month_to_int (.str "Sep.") = some 9 ∧
    month_to_int (.int 7) = some 7 ∧
    month_to_int (.str (toString (12 : Int))) = some 12 ∧
    month_to_int (.str "") = some 1 := by
  obtain ⟨hint, hnum, hname, hemp⟩ := c7_month_to_int_representations
  exact ⟨hname "JANUARY" "january" 1 (by decide) (by decide) (by decide),
    hname "Sep." "sep." 9 (by decide) (by decide) (by decide),
    hint 7, hnum 12 (by decide) (by decide), hemp⟩

/-! ## C6: `date_to_float` -/

theorem date_to_float_int_eq (y m d : Int) :
    date_to_float (.int y) (.int m) (.int d)
      = some ((y : ℚ) + (m : ℚ) / 100 + (d : ℚ) / 10000) := rfl

/-- C6: `date_to_float(y, m, d)` is `y + month_to_int(m)/100 + d/10000`
(floats as exact rationals), it is strictly increasing in the
lexicographic order of (year, canonical month 1–12, day 0–99), and the
three cited examples evaluate as stated. -/
theorem c6_date_to_float_encoding (y1 m1 d1 y2 m2 d2 : Int)
    (hm1 : 1 ≤ m1) (hm1' : m1 ≤ 12) (hm2 : 1 ≤ m2) (hm2' : m2 ≤ 12)
    (hd1 : 0 ≤ d1) (hd1' : d1 ≤ 99) (hd2 : 0 ≤ d2) (hd2' : d2 ≤ 99)
    (hlex : y1 < y2 ∨ (y1 = y2 ∧ m1 < m2) ∨ (y1 = y2 ∧ m1 = m2 ∧ d1 < d2)) :
    (∀ (y d : Int) (m : Val) (mi : Int), month_to_int m = some mi →
      date_to_float (.int y) m (.int d)
        = some ((y : ℚ) + (mi : ℚ) / 100 + (d : ℚ) / 10000)) ∧
    (∃ q1 q2, date_to_float (.int y1) (.int m1) (.int d1) = some q1 ∧
      date_to_float (.int y2) (.int m2) (.int d2) = some q2 ∧ q1 < q2) ∧
    date_to_float (.int 2019) (.int 1) (.int 15) = some (2019.0115 : ℚ) ∧
    date_to_float (.int 2019) (.str "May") (.int 0) = some (2019.05 : ℚ) ∧
    date_to_float (.int 2019) (.str "February") (.int 2)
      = some (2019.0202 : ℚ) := by
  have heq : ∀ (y d : Int) (m : Val) (mi : Int), month_to_int m = some mi →
      date_to_float (.int y) m (.int d)
        = some ((y : ℚ) + (mi : ℚ) / 100 + (d : ℚ) / 10000) := by
    intro y d m mi hm
    simp only [date_to_float, pyToInt, hm, Option.bind_eq_bind,
      Option.some_bind, Option.pure_def]
  have hmay : month_to_int (.str "May") = some 5 := rfl
  have hfeb : month_to_int (.str "February") = some 2 := rfl
  refine ⟨heq, ?_, ?_, ?_, ?_⟩
  · refine ⟨_, _, heq y1 d1 (.int m1) m1 rfl, heq y2 d2 (.int m2) m2 rfl, ?_⟩
    have c1 : (m1 : ℚ) ≤ 12 := by exact_mod_cast hm1'
    have c2 : (1 : ℚ) ≤ (m2 : ℚ) := by exact_mod_cast hm2
    have c3 : (d1 : ℚ) ≤ 99 := by exact_mod_cast hd1'
    have c4 : (0 : ℚ) ≤ (d2 : ℚ) := by exact_mod_cast hd2
    rcases hlex with hy | ⟨hy, hm⟩ | ⟨hy, hm, hd⟩
    · have : (y1 : ℚ) + 1 ≤ (y2 : ℚ) := by exact_mod_cast Int.add_one_le_of_lt hy
      linarith
    · subst hy
      have : (m1 : ℚ) + 1 ≤ (m2 : ℚ) := by exact_mod_cast Int.add_one_le_of_lt hm
      linarith
    · subst hy; subst hm
      have : (d1 : ℚ) + 1 ≤ (d2 : ℚ) := by exact_mod_cast Int.add_one_le_of_lt hd
      linarith
  · rw [heq 2019 15 (.int 1) 1 rfl]
    norm_num
  · rw [heq 2019 0 (.str "May") 5 hmay]
    norm_num
  · rw [heq 2019 2 (.str "February") 2 hfeb]
    norm_num

/-- C6 witness: instantiation at (2019, May, 3) < (2020, Jan, 0) with the
bounds discharged. -/
theorem c6_date_to_float_encoding_witness :
    ∃ q1 q2, date_to_float (.int 2019) (.int 5) (.int 3) = some q1 ∧
      date_to_float (.int 2020) (.int 1) (.int 0) = some q2 ∧ q1 < q2 :=
  (c6_date_to_float_encoding 2019 5 3 2020 1 0 (by decide) (by decide)
    (by decide) (by decide) (by decide) (by decide) (by decide) (by decide)
    (Or.inl (by decide))).2.1

/-! ## C5: `is_since` / `is_before` / `is_between` -/

theorem daysInMonth_ge (y m : Int) : 28 ≤ daysInMonth y m := by
  unfold daysInMonth
  split_ifs <;> norm_num

theorem resolveDay_idem (yr mi : Int) (od : Option Int) (v : Int)
    (h : resolveDay yr mi od = some v) :
    resolveDay yr mi (some v) = some v := by
  have hd := daysInMonth_ge yr mi
  have hv : v = daysInMonth yr mi ∨ (v ≠ 0) := by
    cases od with
    | none =>
        simp only [resolveDay] at h
        by_cases hm : 1 ≤ mi ∧ mi ≤ 12
        · rw [if_pos hm] at h
          exact Or.inl (Option.some.inj h).symm
        · rw [if_neg hm] at h
          exact absurd h (by simp)
    | some dv =>
        simp only [resolveDay] at h
        by_cases h0 : dv = 0
        · rw [if_pos h0] at h
          by_cases hm : 1 ≤ mi ∧ mi ≤ 12
          · rw [if_pos hm] at h
            exact Or.inl (Option.some.inj h).symm
          · rw [if_neg hm] at h
            exact absurd h (by simp)
        · rw [if_neg h0] at h
          obtain rfl := Option.some.inj h
          exact Or.inr h0
  simp only [resolveDay]
  rcases hv with rfl | hv
  · rw [if_neg (by omega)]
  · rw [if_neg hv]

theorem is_before_bd_resolved (y by_ : Int) (m : Val) (d : Option Int)
    (bm : Val) (bd : Option Int) (bmi bdd : Int)
    (hbm : month_to_int bm = some bmi)
    (hr : resolveDay by_ bmi bd = some bdd) :
    is_before y by_ m d bm bd = is_before y by_ m d bm (some bdd) := by
  unfold is_before
  cases hm : month_to_int m with
  | none => simp
  | some mi =>
      simp only [Option.bind_eq_bind, Option.some_bind]
      cases hdd : resolveDay y mi d with
      | none => simp
      | some dd =>
          simp only [Option.some_bind, hbm]
          rw [hr, resolveDay_idem _ _ _ _ hr]

theorem validDate_parts {y m d : Int} (h : validDate y m d = true) :
    1 ≤ y ∧ y ≤ 9999 ∧ 1 ≤ m ∧ m ≤ 12 ∧ 1 ≤ d ∧ d ≤ daysInMonth y m := by
  simpa [validDate] using h

theorem is_since_self (y d : Int) (m : Val) (mi : Int)
    (hm : month_to_int m = some mi) (hv : validDate y mi d = true) :
    is_since y y m d m d = some true := by
  unfold is_since
  rw [hm]
  simp [hv]

theorem is_before_self (y d : Int) (m : Val) (mi : Int)
    (hm : month_to_int m = some mi) (hv : validDate y mi d = true) :
    is_before y y m (some d) m (some d) = some true := by
  have hd1 : 1 ≤ d := (validDate_parts hv).2.2.2.2.1
  have hres : resolveDay y mi (some d) = some d := by
    simp only [resolveDay]
    rw [if_neg (by omega)]
  unfold is_before
  rw [hm]
  simp only [Option.bind_eq_bind, Option.some_bind, hres]
  simp [hv]

theorem is_between_iff (y sy by_ : Int) (m : Val) (d : Int) (sm : Val)
    (sd : Int) (bm : Val) (bd : Option Int) :
    is_between y sy by_ m d sm sd bm bd = some true ↔
      (is_since y sy m d sm sd = some true ∧
       is_before y by_ m (some d) bm bd = some true) := by
  unfold is_between
  cases hbm : month_to_int bm with
  | none =>
      simp only [Option.bind_eq_bind, Option.none_bind]
      constructor
      · intro h; exact absurd h (by simp)
      · rintro ⟨-, hb⟩
        unfold is_before at hb
        cases hm : month_to_int m with
        | none => rw [hm] at hb; exact absurd hb (by simp)
        | some mi =>
            rw [hm] at hb
            simp only [Option.bind_eq_bind, Option.some_bind] at hb
            cases hdd : resolveDay y mi (some d) with
            | none => rw [hdd] at hb; exact absurd hb (by simp)
            | some dd =>
                rw [hdd, hbm] at hb
                exact absurd hb (by simp)
  | some bmi =>
      simp only [Option.bind_eq_bind, Option.some_bind]
      cases hr : resolveDay by_ bmi bd with
      | none =>
          simp only [Option.none_bind]
          constructor
          · intro h; exact absurd h (by simp)
          · rintro ⟨-, hb⟩
            unfold is_before at hb
            cases hm : month_to_int m with
            | none => rw [hm] at hb; exact absurd hb (by simp)
            | some mi =>
                rw [hm] at hb
                simp only [Option.bind_eq_bind, Option.some_bind] at hb
                cases hdd : resolveDay y mi (some d) with
                | none => rw [hdd] at hb; exact absurd hb (by simp)
                | some dd =>
                    rw [hdd] at hb
                    simp only [Option.some_bind] at hb
                    rw [hbm] at hb
                    simp only [Option.some_bind] at hb
                    rw [hr] at hb
                    exact absurd hb (by simp)
      | some bdd =>
          simp only [Option.some_bind]
          rw [is_before_bd_resolved y by_ m (some d) bm bd bmi bdd hbm hr]
          cases hs : is_since y sy m d sm sd with
          | none =>
              simp only [Option.none_bind]
              constructor
              · intro h; exact absurd h (by simp)
              · rintro ⟨h, -⟩; exact absurd h (by simp)
          | some s =>
              simp only [Option.some_bind]
              cases s with
              | false =>
                  simp only [Bool.false_eq_true, if_false]
                  constructor
                  · intro h
                    exact absurd h (by simp [Option.pure_def])
                  · rintro ⟨h, -⟩
                    exact absurd h (by simp)
              | true =>
                  simp only [if_true]
                  constructor
                  · intro h; exact ⟨by simp, h⟩
                  · rintro ⟨-, hb⟩; exact hb

/-- C5 (amended): `is_between` is the short-circuit conjunction of
`is_since` and `is_before` on the same target components; a target equal
to the since date satisfies `is_since`, a target equal to the before date
satisfies `is_before`, and a target equal to either bound satisfies
`is_between` provided the since bound is on or before the before bound. -/
theorem c5_is_between_conjunction_inclusive (y sy by_ d sd bdv smi bmi : Int)
    (m sm bm : Val) (bd : Option Int)
    (hsm : month_to_int sm = some smi) (hbm : month_to_int bm = some bmi)
    (hvs : validDate sy smi sd = true) (hvb : validDate by_ bmi bdv = true)
    (hle : dateKey sy smi sd ≤ dateKey by_ bmi bdv) :
    (is_between y sy by_ m d sm sd bm bd = some true ↔
      (is_since y sy m d sm sd = some true ∧
       is_before y by_ m (some d) bm bd = some true)) ∧
    (∀ (y' d' : Int) (m' : Val) (mi' : Int), month_to_int m' = some mi' →
      validDate y' mi' d' = true → is_since y' y' m' d' m' d' = some true) ∧
    (∀ (y' d' : Int) (m' : Val) (mi' : Int), month_to_int m' = some mi' →
      validDate y' mi' d' = true →
      is_before y' y' m' (some d') m' (some d') = some true) ∧
    is_between sy sy by_ sm sd sm sd bm (some bdv) = some true ∧
    is_between by_ sy by_ bm bdv sm sd bm (some bdv) = some true := by
  have hbd1 : 1 ≤ bdv := (validDate_parts hvb).2.2.2.2.1
  have hsd1 : 1 ≤ sd := (validDate_parts hvs).2.2.2.2.1
  have hresb : resolveDay by_ bmi (some bdv) = some bdv := by
    simp only [resolveDay]
    rw [if_neg (by omega)]
  have hress : resolveDay sy smi (some sd) = some sd := by
    simp only [resolveDay]
    rw [if_neg (by omega)]
  refine ⟨is_between_iff y sy by_ m d sm sd bm bd, is_since_self,
    is_before_self, ?_, ?_⟩
  · rw [is_between_iff]
    refine ⟨is_since_self sy sd sm smi hsm hvs, ?_⟩
    unfold is_before
    rw [hsm]
    simp only [Option.bind_eq_bind, Option.some_bind, hress, hbm, hresb]
    simp [hvs, hvb, hle]
  · rw [is_between_iff]
    constructor
    · unfold is_since
      rw [hbm, hsm]
      simp [hvs, hvb, hle]
    · exact is_before_self by_ bdv bm bmi hbm hvb

/-- C5 counterexample: with since bound 2021-01-01 and before bound
2020-12-31, the target 2021-01-01 equals the since bound (each bound
satisfies its own predicate reflexively) yet `is_between` is false — the
claim's unconditional "a target equal to either bound satisfies
is_between" fails when the bounds are out of order. -/
theorem c5_is_between_boundary_counterexample :
    is_since 2021 2021 (.int 1) 1 (.int 1) 1 = some true ∧
    is_before 2020 2020 (.int 12) (some 31) (.int 12) (some 31) = some true ∧
    is_between 2021 2021 2020 (.int 1) 1 (.int 1) 1 (.int 12) (some 31)
      = some false := by
  refine ⟨by decide, by decide, by decide⟩

/-- C5 witness: the amended conjunction instantiated at target/since
2020-05-05 with before bound 2020-12-31. -/
theorem c5_is_between_conjunction_inclusive_witness :
    is_between 2020 2020 2020 (.int 5) 5 (.int 5) 5 (.int 12) (some 31)
      = some true ∧
    is_between 2020 2020 2020 (.int 12) 31 (.int 5) 5 (.int 12) (some 31)
      = some true :=
  ⟨(c5_is_between_conjunction_inclusive 2020 2020 2020 5 5 31 5 12
      (.int 5) (.int 5) (.int 12) (some 31) rfl rfl (by decide) (by decide)
      (by decide)).2.2.2.1,
   (c5_is_between_conjunction_inclusive 2020 2020 2020 5 5 31 5 12
      (.int 5) (.int 5) (.int 12) (some 31) rfl rfl (by decide) (by decide)
      (by decide)).2.2.2.2⟩

/-! ## C3: `fuzzy_retrieval` -/

/-- The claim's match condition for one document: the gathered candidate
values (scalars as one-element lists, lists flattened) contain the target;
case-insensitively, only string values and a string target are lowercased
and compared, anything else never matches. -/
def fuzzyMatches (sources : List String) (value : Val) (cs : Bool)
    (doc : Doc) : Bool :=
  if cs then (gatherReturns sources doc).contains value
  else
    match value with
    | .str s =>
        (((gatherReturns sources doc).filter Val.isStr).map
          Val.lowerV).contains (.str (pyLower s))
    | _ => false

theorem fuzzy_ci_eq_find (docs : List Doc) (srcs : List String) (v : Val) :
    fuzzy_retrieval docs srcs v false
      = .ok (docs.find? (fuzzyMatches srcs v false)) := by
  induction docs with
  | nil => rfl
  | cons doc rest ih =>
      unfold fuzzy_retrieval
      simp only [Bool.false_eq_true, if_false]
      cases v with
      | str s =>
          simp only [Val.isStr, Val.lowerV, if_true]
          by_cases hc : (((gatherReturns srcs doc).filter Val.isStr).map
              Val.lowerV).contains (.str (pyLower s)) = true
          · rw [if_pos hc, List.find?_cons_of_pos]
            simpa [fuzzyMatches] using hc
          · rw [if_neg hc, List.find?_cons_of_neg, ih]
            simpa [fuzzyMatches] using hc
      | none =>
          simp only [Val.isStr, Bool.false_eq_true, if_false]
          rw [List.find?_cons_of_neg _ (by simp [fuzzyMatches])]
          exact ih
      | int n =>
          simp only [Val.isStr, Bool.false_eq_true, if_false]
          rw [List.find?_cons_of_neg _ (by simp [fuzzyMatches])]
          exact ih
      | bool b =>
          simp only [Val.isStr, Bool.false_eq_true, if_false]
          rw [List.find?_cons_of_neg _ (by simp [fuzzyMatches])]
          exact ih
      | date a b c =>
          simp only [Val.isStr, Bool.false_eq_true, if_false]
          rw [List.find?_cons_of_neg _ (by simp [fuzzyMatches])]
          exact ih
      | list xs =>
          simp only [Val.isStr, Bool.false_eq_true, if_false]
          rw [List.find?_cons_of_neg _ (by simp [fuzzyMatches])]
          exact ih
      | dict d =>
          simp only [Val.isStr, Bool.false_eq_true, if_false]
          rw [List.find?_cons_of_neg _ (by simp [fuzzyMatches])]
          exact ih

theorem fuzzy_cs_eq_find (docs : List Doc) (srcs : List String) (v : Val)
    (hv : v.hashable = true)
    (hall : ∀ doc ∈ docs, (gatherReturns srcs doc).all Val.hashable = true) :
    fuzzy_retrieval docs srcs v true
      = .ok (docs.find? (fuzzyMatches srcs v true)) := by
  induction docs with
  | nil => rfl
  | cons doc rest ih =>
      unfold fuzzy_retrieval
      simp only [if_true]
      rw [if_pos (hall doc (by simp)), if_pos hv]
      by_cases hc : (gatherReturns srcs doc).contains v = true
      · rw [if_pos hc, List.find?_cons_of_pos]
        simpa [fuzzyMatches] using hc
      · rw [if_neg hc, List.find?_cons_of_neg, ih]
        · intro d hd
          exact hall d (by simp [hd])
        · simpa [fuzzyMatches] using hc

/-- C3 (amended): `fuzzy_retrieval` returns the first Document whose
gathered candidate values contain the target and the sentinel `None`
otherwise; with `case_sensitive=False` it never raises and a non-string
target never matches; with `case_sensitive=True` the same holds provided
the target and every gathered candidate value are hashable. -/
theorem c3_fuzzy_retrieval_first_match :
    (∀ (docs : List Doc) (srcs : List String) (v : Val),
      fuzzy_retrieval docs srcs v false
        = .ok (docs.find? (fuzzyMatches srcs v false))) ∧
    (∀ (docs : List Doc) (srcs : List String) (v : Val),
      v.isStr = false → fuzzy_retrieval docs srcs v false
        = .ok Option.none) ∧
    (∀ (docs : List Doc) (srcs : List String) (v : Val),
      v.hashable = true →
      (∀ doc ∈ docs, (gatherReturns srcs doc).all Val.hashable = true) →
      fuzzy_retrieval docs srcs v true
        = .ok (docs.find? (fuzzyMatches srcs v true))) := by
  refine ⟨fuzzy_ci_eq_find, ?_, fuzzy_cs_eq_find⟩
  intro docs srcs v hv
  rw [fuzzy_ci_eq_find, List.find?_eq_none.mpr]
  intro d _
  cases v <;> simp_all [fuzzyMatches, Val.isStr]

/-- C3 counterexample: with `case_sensitive=True` and a document whose
gathered candidate value is itself a list, no document matches the target
yet the call raises `TypeError` (from `frozenset`) instead of returning
the not-found sentinel. -/
theorem c3_fuzzy_retrieval_counterexample :
    fuzzy_retrieval [[("aka", Val.list [Val.list []])]] ["aka"]
        (.str "y") true = .error .typeError ∧
    (∀ d ∈ ([[("aka", Val.list [Val.list []])]] : List Doc),
      fuzzyMatches ["aka"] (.str "y") true d = false) := by
  refine ⟨by decide, by decide⟩

/-- C3 witness: the case-sensitive characterization applied to a concrete
one-person collection. -/
theorem c3_fuzzy_retrieval_first_match_witness :
    fuzzy_retrieval [[("_id", Val.str "jane")]] ["aka", "name", "_id"]
        (.str "jane") true = .ok (some [("_id", Val.str "jane")]) := by
  rw [c3_fuzzy_retrieval_first_match.2.2 [[("_id", Val.str "jane")]]
    ["aka", "name", "_id"] (.str "jane") (by decide) (by decide)]
  decide

/-! ## C1: frame effects of `filter_service` / `filter_patents` -/

theorem ok_bind (a : α) (f : α → Except PyErr β) :
    (Except.ok a >>= f) = f a := rfl

theorem error_bind (e : PyErr) (f : α → Except PyErr β) :
    (Except.error e >>= f : Except PyErr β) = Except.error e := rfl

theorem pure_eq_ok (a : α) : (pure a : Except PyErr α) = Except.ok a := rfl

theorem Doc.get?_set_self (d : Doc) (k : String) (v : Val) :
    Doc.get? (Doc.set d k v) k = some v := by
  induction d with
  | nil => simp [Doc.set, Doc.get?, alookup]
  | cons p rest ih =>
      obtain ⟨k', v'⟩ := p
      by_cases h : k' = k
      · subst h
        simp [Doc.set, Doc.get?, alookup]
      · simp only [Doc.set, if_neg h, Doc.get?, alookup]
        exact ih

theorem Doc.get?_set_ne (d : Doc) (k k' : String) (v : Val) (h : k' ≠ k) :
    Doc.get? (Doc.set d k v) k' = Doc.get? d k' := by
  induction d with
  | nil =>
      simp only [Doc.set, Doc.get?, alookup]
      rw [if_neg (fun hh => h hh.symm)]
  | cons p rest ih =>
      obtain ⟨k0, v0⟩ := p
      by_cases h0 : k0 = k
      · subst h0
        simp only [Doc.set, if_pos rfl, Doc.get?, alookup]
        rw [if_neg (fun hh => h hh.symm), if_neg (fun hh => h hh.symm)]
      · simp only [Doc.set, if_neg h0, Doc.get?, alookup]
        by_cases hk : k0 = k'
        · rw [if_pos hk, if_pos hk]
        · rw [if_neg hk, if_neg hk]
          exact ih

/-- The per-person effect of `filter_service` on the caller's document:
its `service` field is replaced in place by the filtered, month-normalized
sub-list. -/
def serviceStep (today bp : PyDate) (ty : Val) (p : Doc) :
    Except PyErr Doc := do
  let items ← pyIterate (Doc.getD p "service" (.list []))
  let kept ← serviceItems today bp ty items
  pure (Doc.set p "service" (.list (kept.map Val.dict)))

/-- Whether a person document carries a nonempty `service` list (the
post-loop inclusion test `len(p['service']) > 0`). -/
def hasService (p : Doc) : Bool :=
  match Doc.get? p "service" with
  | some (.list l) => ¬ l.isEmpty
  | _ => false

theorem filter_service_post_char (today bp : PyDate) (ty : Val)
    (ppl : List Doc) (res post : List Doc)
    (h : filter_service today bp ty ppl = .ok (res, post)) :
    eMapM (serviceStep today bp ty) ppl = .ok post ∧
      res = post.filter hasService := by
  induction ppl generalizing res post with
  | nil =>
      obtain ⟨h1, h2⟩ := Prod.mk.injEq .. ▸ Except.ok.inj h
      subst h1; subst h2
      exact ⟨rfl, rfl⟩
  | cons p ps ih =>
      rw [filter_service] at h
      cases h1 : pyIterate (Doc.getD p "service" (.list [])) with
      | error e => rw [h1, error_bind] at h; exact absurd h (by simp)
      | ok items =>
          rw [h1, ok_bind] at h
          cases h2 : serviceItems today bp ty items with
          | error e => rw [h2, error_bind] at h; exact absurd h (by simp)
          | ok kept =>
              rw [h2, ok_bind] at h
              cases h3 : filter_service today bp ty ps with
              | error e => rw [h3, error_bind] at h; exact absurd h (by simp)
              | ok pr =>
                  rw [h3, ok_bind, pure_eq_ok] at h
                  obtain ⟨hres, hpost⟩ := Prod.mk.injEq .. ▸ Except.ok.inj h
                  obtain ⟨ih1, ih2⟩ := ih pr.1 pr.2 h3
                  subst hpost
                  subst hres
                  constructor
                  · rw [eMapM, serviceStep, h1, ok_bind, h2, ok_bind,
                      pure_eq_ok, ok_bind, ih1, ok_bind, pure_eq_ok]
                  · rw [List.filter_cons]
                    by_cases hk : kept.isEmpty
                    · have hsrv : hasService
                          (Doc.set p "service" (.list (kept.map Val.dict)))
                          = false := by
                        simp only [hasService, Doc.get?_set_self]
                        simp only [List.isEmpty_iff] at hk ⊢
                        simp [hk]
                      simp [hk, hsrv, ih2]
                    · have hsrv : hasService
                          (Doc.set p "service" (.list (kept.map Val.dict)))
                          = true := by
                        simp only [hasService, Doc.get?_set_self]
                        simp only [List.isEmpty_iff] at hk ⊢
                        simp [hk]
                      simp [hk, hsrv, ih2]

theorem filter_patents_post_char (people : List Doc) (target : Val)
    (since : Option PyDate) (today : PyDate) (coll : List Doc)
    (res post : List Doc)
    (h : filter_patents people target since today coll = .ok (res, post)) :
    ∃ steps : List (Bool × Doc),
      eMapM (patentStep people target since today) coll = .ok steps ∧
      post = steps.map Prod.snd ∧
      res = (steps.filter Prod.fst).map Prod.snd := by
  induction coll generalizing res post with
  | nil =>
      obtain ⟨h1, h2⟩ := Prod.mk.injEq .. ▸ Except.ok.inj h
      subst h1; subst h2
      exact ⟨[], rfl, rfl, rfl⟩
  | cons i rest ih =>
      rw [filter_patents] at h
      cases h1 : patentStep people target since today i with
      | error e => rw [h1, error_bind] at h; exact absurd h (by simp)
      | ok st =>
          rw [h1, ok_bind] at h
          cases h2 : filter_patents people target since today rest with
          | error e => rw [h2, error_bind] at h; exact absurd h (by simp)
          | ok pr =>
              rw [h2, ok_bind, pure_eq_ok] at h
              obtain ⟨hres, hpost⟩ := Prod.mk.injEq .. ▸ Except.ok.inj h
              obtain ⟨steps, hst, hp, hr⟩ := ih pr.1 pr.2 h2
              subst hpost
              subst hres
              refine ⟨st :: steps, ?_, ?_, ?_⟩
              · rw [eMapM, h1, ok_bind, hst, ok_bind, pure_eq_ok]
              · rw [List.map_cons, hp]
              · rw [List.filter_cons, hr]
                by_cases hk : st.1
                · simp [hk]
                · simp [hk]

/-- C1 (amended): `filter_publications` and `filter_presentations`
deep-copy, but `filter_service` and `filter_patents` mutate the caller's
documents in place: after a successful run the caller's collection holds
every document's normalized post-state — each person's `service` field
replaced by the filtered month-normalized sub-list, each gated patent's
`month`/`events` rewritten — and the returned lists are exactly the kept
among these mutated documents. -/
theorem c1_filter_mutation_characterization :
    (∀ (today bp : PyDate) (ty : Val) (ppl res post : List Doc),
      filter_service today bp ty ppl = .ok (res, post) →
        eMapM (serviceStep today bp ty) ppl = .ok post ∧
        res = post.filter hasService) ∧
    (∀ (people : List Doc) (target : Val) (since : Option PyDate)
        (today : PyDate) (coll res post : List Doc),
      filter_patents people target since today coll = .ok (res, post) →
        ∃ steps : List (Bool × Doc),
          eMapM (patentStep people target since today) coll = .ok steps ∧
          post = steps.map Prod.snd ∧
          res = (steps.filter Prod.fst).map Prod.snd) :=
  ⟨filter_service_post_char, filter_patents_post_char⟩

/-- C1 counterexample: `filter_service` run on a one-person collection
leaves the caller's person document with its `service` list emptied in
place, and `filter_patents` run with no window reorders a matching
patent's `events` list in place — in both cases the post-call state of the
caller's collection differs from the original. -/
theorem c1_filter_mutation_counterexample :
    (filter_service (2020, 1, 1) (2020, 1, 1) (.str "y")
        [[("_id", Val.str "p1"),
          ("service", Val.list [Val.dict [("type", Val.str "x")]])]]
      = .ok ([], [[("_id", Val.str "p1"), ("service", Val.list [])]]) ∧
      ([[("_id", Val.str "p1"), ("service", Val.list [])]] : List Doc) ≠
        [[("_id", Val.str "p1"),
          ("service", Val.list [Val.dict [("type", Val.str "x")]])]]) ∧
    (filter_patents [[("_id", Val.str "a")]] (.str "a") Option.none
        (2020, 1, 1)
        [[("status", Val.str "active"), ("type", Val.str "patent"),
          ("inventors", Val.list [Val.str "a"]),
          ("end_year", Val.int 2030),
          ("events", Val.list
            [Val.dict [("year", Val.int 2020), ("month", Val.int 5)],
             Val.dict [("year", Val.int 2019), ("month", Val.int 4)]])]]
      = .ok ([[("status", Val.str "active"), ("type", Val.str "patent"),
          ("inventors", Val.list [Val.str "a"]),
          ("end_year", Val.int 2030),
          ("events", Val.list
            [Val.dict [("year", Val.int 2019), ("month", Val.int 4)],
             Val.dict [("year", Val.int 2020), ("month", Val.int 5)]])]],
        [[("status", Val.str "active"), ("type", Val.str "patent"),
          ("inventors", Val.list [Val.str "a"]),
          ("end_year", Val.int 2030),
          ("events", Val.list
            [Val.dict [("year", Val.int 2019), ("month", Val.int 4)],
             Val.dict [("year", Val.int 2020), ("month", Val.int 5)]])]]) ∧
      (Val.list
          [Val.dict [("year", Val.int 2019), ("month", Val.int 4)],
           Val.dict [("year", Val.int 2020), ("month", Val.int 5)]] ≠
        Val.list
          [Val.dict [("year", Val.int 2020), ("month", Val.int 5)],
           Val.dict [("year", Val.int 2019), ("month", Val.int 4)]])) := by
  refine ⟨⟨by decide, by decide⟩, by decide, by decide⟩

/-- C1 witness: the post-state characterization instantiated on the
concrete mutated person collection. -/
theorem c1_filter_mutation_characterization_witness :
    eMapM (serviceStep (2020, 1, 1) (2020, 1, 1) (.str "y"))
        [[("_id", Val.str "p1"),
          ("service", Val.list [Val.dict [("type", Val.str "x")]])]]
      = .ok [[("_id", Val.str "p1"), ("service", Val.list [])]] ∧
    ([] : List Doc) =
      ([[("_id", Val.str "p1"), ("service", Val.list [])]] : List Doc).filter
        hasService :=
  c1_filter_mutation_characterization.1 (2020, 1, 1) (2020, 1, 1) (.str "y")
    [[("_id", Val.str "p1"),
      ("service", Val.list [Val.dict [("type", Val.str "x")]])]]
    [] [[("_id", Val.str "p1"), ("service", Val.list [])]] (by decide)

/-! ## C8: `filter_licenses` and `total_amount` -/

theorem normalizeItemMonth_shape (i i' : Doc)
    (h : normalizeItemMonth i = .ok i') :
    ∃ nm, i' = Doc.set i "month" nm := by
  rw [normalizeItemMonth] at h
  by_cases ht : (Doc.getD i "month" .none).truthy
  · simp only [ht, Bool.not_true, Bool.false_eq_true, if_false] at h
    cases hc : Doc.getE i "month" with
    | error e => rw [hc, error_bind] at h; exact absurd h (by simp)
    | ok cur =>
        rw [hc, ok_bind] at h
        cases hm : liftO (month_to_int cur) .valueError with
        | error e => rw [hm, error_bind] at h; exact absurd h (by simp)
        | ok mi =>
            rw [hm, ok_bind] at h
            cases hn : shortMonthName mi with
            | error e => rw [hn, error_bind] at h; exact absurd h (by simp)
            | ok nm =>
                rw [hn, ok_bind, pure_eq_ok] at h
                exact ⟨nm, (Except.ok.inj h).symm⟩
  · simp only [ht, Bool.not_false, if_true] at h
    cases hm : liftO (month_to_int (Doc.getD i "begin_month" (.int 0)))
        .valueError with
    | error e => rw [hm, error_bind] at h; exact absurd h (by simp)
    | ok mi =>
        rw [hm, ok_bind] at h
        cases hn : shortMonthName mi with
        | error e => rw [hn, error_bind] at h; exact absurd h (by simp)
        | ok nm =>
            rw [hn, ok_bind, pure_eq_ok] at h
            exact ⟨nm, (Except.ok.inj h).symm⟩

theorem eMapM_mem (f : α → Except PyErr β) (l : List α) (out : List β)
    (h : eMapM f l = .ok out) : ∀ b ∈ out, ∃ a ∈ l, f a = .ok b := by
  induction l generalizing out with
  | nil =>
      obtain rfl := Except.ok.inj h
      intro b hb
      exact absurd hb (by simp)
  | cons a rest ih =>
      rw [eMapM] at h
      cases h1 : f a with
      | error e => rw [h1, error_bind] at h; exact absurd h (by simp)
      | ok b0 =>
          rw [h1, ok_bind] at h
          cases h2 : eMapM f rest with
          | error e => rw [h2, error_bind] at h; exact absurd h (by simp)
          | ok out0 =>
              rw [h2, ok_bind, pure_eq_ok] at h
              obtain rfl := Except.ok.inj h
              intro b hb
              rcases List.mem_cons.mp hb with rfl | hb0
              · exact ⟨a, by simp, h1⟩
              · obtain ⟨a0, ha0, hf⟩ := ih out0 h2 b hb0
                exact ⟨a0, by simp [ha0], hf⟩

theorem filter_licenses_post_char (people : List Doc) (target : Val)
    (since : Option PyDate) (today : PyDate) (coll : List Doc)
    (res post : List Doc)
    (h : filter_licenses people target since today coll = .ok (res, post)) :
    ∃ steps : List (Bool × Doc),
      eMapM (licenseStep people target since today) coll = .ok steps ∧
      post = steps.map Prod.snd ∧
      res = (steps.filter Prod.fst).map Prod.snd := by
  induction coll generalizing res post with
  | nil =>
      obtain ⟨h1, h2⟩ := Prod.mk.injEq .. ▸ Except.ok.inj h
      subst h1; subst h2
      exact ⟨[], rfl, rfl, rfl⟩
  | cons i rest ih =>
      rw [filter_licenses] at h
      cases h1 : licenseStep people target since today i with
      | error e => rw [h1, error_bind] at h; exact absurd h (by simp)
      | ok st =>
          rw [h1, ok_bind] at h
          cases h2 : filter_licenses people target since today rest with
          | error e => rw [h2, error_bind] at h; exact absurd h (by simp)
          | ok pr =>
              rw [h2, ok_bind, pure_eq_ok] at h
              obtain ⟨hres, hpost⟩ := Prod.mk.injEq .. ▸ Except.ok.inj h
              obtain ⟨steps, hst, hp, hr⟩ := ih pr.1 pr.2 h2
              subst hpost
              subst hres
              refine ⟨st :: steps, ?_, ?_, ?_⟩
              · rw [eMapM, h1, ok_bind, hst, ok_bind, pure_eq_ok]
              · rw [List.map_cons, hp]
              · rw [List.filter_cons, hr]
                by_cases hk : st.1
                · simp [hk]
                · simp [hk]

theorem licenseStep_since_char (people : List Doc) (target : Val)
    (s : PyDate) (today : PyDate) (i r : Doc)
    (h : licenseStep people target (some s) today i = .ok (true, r)) :
    ∃ (evVal : Val) (evs : List Val) (total : Int)
      (keyed : List (Val × PyDate)),
      Doc.get? i "events" = some evVal ∧
      pyIterate evVal = .ok evs ∧
      sumAmounts evs = .ok total ∧
      eMapM (fun e => do
        let k ← eventKeyDate e
        pure (e, k)) evs = .ok keyed ∧
      Doc.get? r "total_amount" = some (.int total) ∧
      Doc.get? r "events" = some (.list ((pySortBy
        (fun a b => pdKey a.2 ≤ pdKey b.2)
        (keyed.filter (fun ek => pdKey ek.2 > pdKey s))).map Prod.fst)) := by
  rw [licenseStep] at h
  cases hg : patentGate people target "license" i with
  | error e => rw [hg, error_bind] at h; exact absurd h (by simp)
  | ok g =>
      rw [hg, ok_bind] at h
      cases g with
      | false =>
          simp only [Bool.false_eq_true, if_false, pure_eq_ok] at h
          exact absurd (Prod.mk.injEq .. ▸ Except.ok.inj h).1 (by simp)
      | true =>
          simp only [if_true] at h
          cases hed : patentEndDate today i with
          | error e => rw [hed, error_bind] at h; exact absurd h (by simp)
          | ok ed =>
              rw [hed, ok_bind] at h
              by_cases hcmp : pdKey ed ≥ pdKey s
              · rw [if_pos hcmp] at h
                cases hn : normalizeItemMonth i with
                | error e =>
                    rw [hn, error_bind] at h; exact absurd h (by simp)
                | ok i1 =>
                    rw [hn, ok_bind] at h
                    obtain ⟨nm, hi1⟩ := normalizeItemMonth_shape i i1 hn
                    have hev1 : Doc.get? i1 "events" = Doc.get? i "events" := by
                      rw [hi1]
                      exact Doc.get?_set_ne i "month" "events" nm (by decide)
                    cases hge : Doc.getE i1 "events" with
                    | error e =>
                        rw [hge, error_bind] at h; exact absurd h (by simp)
                    | ok evVal =>
                        rw [hge, ok_bind] at h
                        have hevi : Doc.get? i "events" = some evVal := by
                          rw [Doc.getE] at hge
                          rw [← hev1]
                          cases hq : Doc.get? i1 "events" with
                          | none => rw [hq] at hge; exact absurd hge (by simp)
                          | some v =>
                              rw [hq] at hge
                              exact congrArg some (Except.ok.inj hge)
                        cases hit : pyIterate evVal with
                        | error e =>
                            rw [hit, error_bind] at h
                            exact absurd h (by simp)
                        | ok allEvs =>
                            rw [hit, ok_bind] at h
                            cases hsum : sumAmounts allEvs with
                            | error e =>
                                rw [hsum, error_bind] at h
                                exact absurd h (by simp)
                            | ok total =>
                                rw [hsum, ok_bind] at h
                                have hev2 : Doc.get?
                                    (Doc.set i1 "total_amount" (.int total))
                                    "events" = some evVal := by
                                  rw [Doc.get?_set_ne _ _ _ _ (by decide),
                                    hev1, hevi]
                                cases hge2 : Doc.getE
                                    (Doc.set i1 "total_amount" (.int total))
                                    "events" with
                                | error e =>
                                    rw [hge2, error_bind] at h
                                    exact absurd h (by simp)
                                | ok evVal2 =>
                                    rw [hge2, ok_bind] at h
                                    have heq : evVal = evVal2 := by
                                      rw [Doc.getE, hev2] at hge2
                                      exact Except.ok.inj hge2
                                    subst heq
                                    rw [hit, ok_bind] at h
                                    cases hk : eMapM (fun e => do
                                        let k ← eventKeyDate e
                                        pure (e, k)) allEvs with
                                    | error e =>
                                        rw [hk, error_bind] at h
                                        exact absurd h (by simp)
                                    | ok keyed =>
                                        rw [hk, ok_bind, pure_eq_ok] at h
                                        obtain ⟨h1, h2⟩ :=
                                          Prod.mk.injEq .. ▸ Except.ok.inj h
                                        refine ⟨evVal, allEvs, total, keyed,
                                          hevi, hit, hsum, hk, ?_, ?_⟩
                                        · rw [← h2,
                                            Doc.get?_set_ne _ _ _ _ (by decide),
                                            Doc.get?_set_self]
                                        · rw [← h2, Doc.get?_set_self]
              · rw [if_neg hcmp, pure_eq_ok] at h
                exact absurd (Prod.mk.injEq .. ▸ Except.ok.inj h).1 (by simp)

/-- The (amended) relation between a kept license document `r` and its
originating document `i` under a `since` window: the attached
`total_amount` is the sum of the `amount` fields of ALL of `i`'s events,
while the attached `events` list is the window-restricted, date-sorted
sub-list. -/
def licenseTotalOverAllEvents (s : PyDate) (i r : Doc) : Prop :=
  ∃ (evVal : Val) (evs : List Val) (total : Int)
    (keyed : List (Val × PyDate)),
    Doc.get? i "events" = some evVal ∧
    pyIterate evVal = .ok evs ∧
    sumAmounts evs = .ok total ∧
    eMapM (fun e => do
      let k ← eventKeyDate e
      pure (e, k)) evs = .ok keyed ∧
    Doc.get? r "total_amount" = some (.int total) ∧
    Doc.get? r "events" = some (.list ((pySortBy
      (fun a b => pdKey a.2 ≤ pdKey b.2)
      (keyed.filter (fun ek => pdKey ek.2 > pdKey s))).map Prod.fst))

/-- C8 (amended): for every license document that `filter_licenses`
includes in its result under a `since` window, the attached `total_amount`
equals the sum of the `amount` fields of ALL of that document's events —
computed before the window restriction — not only of the qualifying
events retained in the restricted `events` list. -/
theorem c8_filter_licenses_total_over_all_events (people : List Doc)
    (target : Val) (s : PyDate) (today : PyDate) (coll res post : List Doc)
    (h : filter_licenses people target (some s) today coll
      = .ok (res, post)) :
    ∀ r ∈ res, ∃ i ∈ coll, licenseTotalOverAllEvents s i r := by
  intro r hr
  obtain ⟨steps, hst, hp, hres⟩ :=
    filter_licenses_post_char people target (some s) today coll res post h
  subst hres
  obtain ⟨st, hstmem, hsnd⟩ := List.mem_map.mp hr
  obtain ⟨hmem, hfst⟩ := List.mem_filter.mp hstmem
  obtain ⟨i, hi, hstep⟩ := eMapM_mem _ _ _ hst st hmem
  have hstep' : licenseStep people target (some s) today i = .ok (true, r) := by
    rw [hstep]
    have h1 : st.1 = true := by simpa using hfst
    calc Except.ok st = Except.ok (st.1, st.2) := rfl
      _ = Except.ok (true, r) := by rw [h1, hsnd]
  obtain ⟨evVal, evs, total, keyed, h1, h2, h3, h4, h5, h6⟩ :=
    licenseStep_since_char people target s today i r hstep'
  exact ⟨i, hi, evVal, evs, total, keyed, h1, h2, h3, h4, h5, h6⟩

/-- C8 counterexample: a license with one in-window event of amount 10 and
one pre-window event of amount 5; the retained events list holds only the
in-window event, yet the attached `total_amount` is 15, not 10. -/
theorem c8_filter_licenses_counterexample :
    filter_licenses [[("_id", Val.str "a")]] (.str "a")
        (some (2010, 1, 1)) (2020, 1, 1)
        [[("status", Val.str "active"), ("type", Val.str "license"),
          ("inventors", Val.list [Val.str "a"]),
          ("end_year", Val.int 2030),
          ("events", Val.list
            [Val.dict [("year", Val.int 2020), ("month", Val.int 5),
              ("amount", Val.int 10)],
             Val.dict [("year", Val.int 2000), ("month", Val.int 1),
              ("amount", Val.int 5)]])]]
      = .ok ([[("status", Val.str "active"), ("type", Val.str "license"),
          ("inventors", Val.list [Val.str "a"]),
          ("end_year", Val.int 2030),
          ("events", Val.list
            [Val.dict [("year", Val.int 2020), ("month", Val.int 5),
              ("amount", Val.int 10)]]),
          ("month", Val.none), ("total_amount", Val.int 15)]],
        [[("status", Val.str "active"), ("type", Val.str "license"),
          ("inventors", Val.list [Val.str "a"]),
          ("end_year", Val.int 2030),
          ("events", Val.list
            [Val.dict [("year", Val.int 2020), ("month", Val.int 5),
              ("amount", Val.int 10)]]),
          ("month", Val.none), ("total_amount", Val.int 15)]]) ∧
    sumAmounts [Val.dict [("year", Val.int 2020), ("month", Val.int 5),
      ("amount", Val.int 10)]] = .ok 10 ∧
    (15 : Int) ≠ 10 := by
  refine ⟨by decide, by decide, by decide⟩

/-- C8 witness: the amended characterization applied to the concrete
license of the counterexample. -/
theorem c8_filter_licenses_total_over_all_events_witness :
    ∃ i ∈ [[("status", Val.str "active"), ("type", Val.str "license"),
          ("inventors", Val.list [Val.str "a"]),
          ("end_year", Val.int 2030),
          ("events", Val.list
            [Val.dict [("year", Val.int 2020), ("month", Val.int 5),
              ("amount", Val.int 10)],
             Val.dict [("year", Val.int 2000), ("month", Val.int 1),
              ("amount", Val.int 5)]])]],
      licenseTotalOverAllEvents (2010, 1, 1) i
        [("status", Val.str "active"), ("type", Val.str "license"),
          ("inventors", Val.list [Val.str "a"]),
          ("end_year", Val.int 2030),
          ("events", Val.list
            [Val.dict [("year", Val.int 2020), ("month", Val.int 5),
              ("amount", Val.int 10)]]),
          ("month", Val.none), ("total_amount", Val.int 15)] :=
  c8_filter_licenses_total_over_all_events [[("_id", Val.str "a")]]
    (.str "a") (2010, 1, 1) (2020, 1, 1)
    [[("status", Val.str "active"), ("type", Val.str "license"),
      ("inventors", Val.list [Val.str "a"]),
      ("end_year", Val.int 2030),
      ("events", Val.list
        [Val.dict [("year", Val.int 2020), ("month", Val.int 5),
          ("amount", Val.int 10)],
         Val.dict [("year", Val.int 2000), ("month", Val.int 1),
          ("amount", Val.int 5)]])]]
    [[("status", Val.str "active"), ("type", Val.str "license"),
      ("inventors", Val.list [Val.str "a"]),
      ("end_year", Val.int 2030),
      ("events", Val.list
        [Val.dict [("year", Val.int 2020), ("month", Val.int 5),
          ("amount", Val.int 10)]]),
      ("month", Val.none), ("total_amount", Val.int 15)]]
    [[("status", Val.str "active"), ("type", Val.str "license"),
      ("inventors", Val.list [Val.str "a"]),
      ("end_year", Val.int 2030),
      ("events", Val.list
        [Val.dict [("year", Val.int 2020), ("month", Val.int 5),
          ("amount", Val.int 10)]]),
      ("month", Val.none), ("total_amount", Val.int 15)]]
    (by decide)
    ([("status", Val.str "active"), ("type", Val.str "license"),
      ("inventors", Val.list [Val.str "a"]),
      ("end_year", Val.int 2030),
      ("events", Val.list
        [Val.dict [("year", Val.int 2020), ("month", Val.int 5),
          ("amount", Val.int 10)]]),
      ("month", Val.none), ("total_amount", Val.int 15)])
    (by simp)

/-! ## C2: `filter_publications` -/

/-- The claim's relevance predicate: the publication's author∪editor set
intersects the target set (fields read as lists). -/
def pubRelevant (authors : List Val) (pub : Doc) : Bool :=
  ((match Doc.getD pub "author" (.list []) with
    | .list xs => xs
    | _ => []) ++
   (match Doc.getD pub "editor" (.list []) with
    | .list xs => xs
    | _ => [])).any (fun x => authors.contains x)

/-- The emphasis-marker form of one author value (strings only). -/
def boldValStr : Val → Val
  | .str s => .str ("\\textbf\x7b" ++ s ++ "\x7d")
  | v => v

/-- The bolding of one author value: a member of the target set is wrapped
in the `\textbf` emphasis marker. -/
def boldVal (authors : List Val) (a : Val) : Val :=
  if authors.contains a then boldValStr a else a

/-- The bolded copy of a publication: its `author` list mapped through
`boldVal`. -/
def boldDoc (authors : List Val) (pub : Doc) : Doc :=
  Doc.set pub "author" (.list ((match Doc.getD pub "author" (.list []) with
    | .list xs => xs
    | _ => []).map (boldVal authors)))

/-- Well-formedness of a publication for the default (bolding) path: a
list-valued `author` field of hashable values whose target-set members are
strings, and a list-valued (possibly defaulted) `editor` field of hashable
values. -/
def pubWF (authors : List Val) (pub : Doc) : Prop :=
  ∃ as_ es, Doc.get? pub "author" = some (.list as_) ∧
    as_.all Val.hashable = true ∧
    (∀ a ∈ as_, authors.contains a = true → a.isStr = true) ∧
    Doc.getD pub "editor" (.list []) = .list es ∧
    es.all Val.hashable = true

theorem boldSelf_eq_map (authors : List Val) (as_ : List Val)
    (hh : as_.all Val.hashable = true)
    (hs : ∀ a ∈ as_, authors.contains a = true → a.isStr = true) :
    boldSelf authors as_ = .ok (as_.map (boldVal authors)) := by
  induction as_ with
  | nil => rfl
  | cons a rest ih =>
      simp only [List.all_cons, Bool.and_eq_true] at hh
      obtain ⟨ha, hrest⟩ := hh
      have ihr := ih hrest (fun x hx hc => hs x (by simp [hx]) hc)
      rw [boldSelf, if_neg (by simp [ha])]
      by_cases hc : authors.contains a = true
      · have hstr := hs a (by simp) hc
        cases a with
        | str s =>
            rw [if_pos hc]
            rw [show boldWrap (Val.str s)
              = .ok (.str ("\\textbf\x7b" ++ s ++ "\x7d")) from rfl]
            rw [ok_bind, ihr, ok_bind, pure_eq_ok, List.map_cons]
            rw [boldVal, if_pos hc]
            rfl
        | none => exact absurd hstr (by simp [Val.isStr])
        | int n => exact absurd hstr (by simp [Val.isStr])
        | bool b => exact absurd hstr (by simp [Val.isStr])
        | date x y z => exact absurd hstr (by simp [Val.isStr])
        | list xs => exact absurd hstr (by simp [Val.isStr])
        | dict d => exact absurd hstr (by simp [Val.isStr])
      · rw [if_neg hc, ihr, ok_bind, pure_eq_ok, List.map_cons]
        rw [boldVal, if_neg hc]

theorem filterPubsLoop_char (authors : List Val) (cits : List Doc)
    (hwf : ∀ pub ∈ cits, pubWF authors pub) :
    filterPubsLoop authors true Option.none Option.none cits
      = .ok ((cits.filter (pubRelevant authors)).map (boldDoc authors)) := by
  induction cits with
  | nil => rfl
  | cons pub rest ih =>
      have ihr := ih (fun p hp => hwf p (by simp [hp]))
      obtain ⟨as_, es, hga, hha, hstr, hge, hhe⟩ := hwf pub (by simp)
      have hgda : Doc.getD pub "author" (.list []) = .list as_ := by
        rw [Doc.getD, hga]
        rfl
      have hsa : pySetVals (Val.list as_) = .ok as_ := by
        rw [pySetVals, pyIterate, ok_bind, if_pos hha, pure_eq_ok]
      have hse : pySetVals (Val.list es) = .ok es := by
        rw [pySetVals, pyIterate, ok_bind, if_pos hhe, pure_eq_ok]
      have hpr : pubRelevant authors pub
          = (as_ ++ es).any (fun x => authors.contains x) := by
        rw [pubRelevant, hgda, hge]
      rw [filterPubsLoop, hgda, hsa, ok_bind, hge, hse, ok_bind]
      by_cases hrel : (as_ ++ es).any (fun x => authors.contains x) = true
      · rw [if_neg (fun hcon => hcon hrel), if_pos rfl]
        have hbold : boldSelf authors as_
            = .ok (as_.map (boldVal authors)) := boldSelf_eq_map authors as_ hha hstr
        rw [show Doc.getE pub "author" = .ok (.list as_) by
          rw [Doc.getE, hga]]
        rw [ok_bind, pyIterate, ok_bind, hbold, ok_bind, pure_eq_ok, ok_bind,
          ihr, ok_bind, pure_eq_ok, List.filter_cons, hpr, hrel]
        simp only [if_true]
        rw [List.map_cons]
        have hbd : boldDoc authors pub
            = Doc.set pub "author" (.list (as_.map (boldVal authors))) := by
          rw [boldDoc, hgda]
        rw [hbd]
      · rw [if_pos hrel, ihr, List.filter_cons, hpr]
        simp only [hrel, Bool.false_eq_true, if_false]

/-- C2 (amended): with the default flags (`reverse=False`, `bold=True`)
and no date window, `filter_publications` returns exactly the publications
whose author∪editor set intersects the target set, each with every matched
author name wrapped in the `\textbf` emphasis marker, ordered by
ASCENDING date key (the default `reverse=False` sorts ascending;
descending order requires `reverse=True`) — provided each publication
carries a list-valued hashable `author`/`editor` shape with string-typed
matched names. -/
theorem c2_filter_publications_default (citations : List Doc)
    (authors : List Val) (hwf : ∀ pub ∈ citations, pubWF authors pub) :
    filter_publications citations authors false true Option.none Option.none
      = .ok (pySortBy (pubLe false)
          ((citations.filter (pubRelevant authors)).map (boldDoc authors))) := by
  rw [filter_publications, filterPubsLoop_char authors citations hwf,
    ok_bind, pure_eq_ok]

/-- C2 counterexample: two matching publications dated 2019 and 2020; with
the default flags the result lists the 2019 publication first — ascending
date order, not the claimed descending order. -/
theorem c2_filter_publications_counterexample :
    filter_publications [[("_id", Val.str "a"), ("author", Val.list [Val.str "J"]),
          ("year", Val.int 2019)], [("_id", Val.str "b"), ("author", Val.list [Val.str "J"]),
          ("year", Val.int 2020)]]
        [Val.str "J"] false true Option.none Option.none
      = .ok [[("_id", Val.str "a"),
          ("author", Val.list [Val.str "\\textbf\x7bJ\x7d"]),
          ("year", Val.int 2019)], [("_id", Val.str "b"),
          ("author", Val.list [Val.str "\\textbf\x7bJ\x7d"]),
          ("year", Val.int 2020)]] ∧
    doc_date_key [("_id", Val.str "a"),
          ("author", Val.list [Val.str "\\textbf\x7bJ\x7d"]),
          ("year", Val.int 2019)] < doc_date_key [("_id", Val.str "b"),
          ("author", Val.list [Val.str "\\textbf\x7bJ\x7d"]),
          ("year", Val.int 2020)] ∧
    ([("_id", Val.str "a"),
          ("author", Val.list [Val.str "\\textbf\x7bJ\x7d"]),
          ("year", Val.int 2019)] : Doc) ≠ [("_id", Val.str "b"),
          ("author", Val.list [Val.str "\\textbf\x7bJ\x7d"]),
          ("year", Val.int 2020)] := by
  have hk1 : doc_date_key [("_id", Val.str "a"),
          ("author", Val.list [Val.str "\\textbf\x7bJ\x7d"]),
          ("year", Val.int 2019)]
      = ((2019 : Int) : ℚ) + ((1 : Int) : ℚ) / 100
        + ((0 : Int) : ℚ) / 10000 := by
    rw [doc_date_key]
    rw [show pyToInt (Doc.getD [("_id", Val.str "a"),
          ("author", Val.list [Val.str "\\textbf\x7bJ\x7d"]),
          ("year", Val.int 2019)] "year" (.int 0)) = some 2019 by decide]
    rw [show month_to_int (Doc.getD [("_id", Val.str "a"),
          ("author", Val.list [Val.str "\\textbf\x7bJ\x7d"]),
          ("year", Val.int 2019)] "month" (.int 1)) = some 1
      by decide]
    rw [show pyToInt (Doc.getD [("_id", Val.str "a"),
          ("author", Val.list [Val.str "\\textbf\x7bJ\x7d"]),
          ("year", Val.int 2019)] "day" (.int 0)) = some 0 by decide]
    simp
  have hk2 : doc_date_key [("_id", Val.str "b"),
          ("author", Val.list [Val.str "\\textbf\x7bJ\x7d"]),
          ("year", Val.int 2020)]
      = ((2020 : Int) : ℚ) + ((1 : Int) : ℚ) / 100
        + ((0 : Int) : ℚ) / 10000 := by
    rw [doc_date_key]
    rw [show pyToInt (Doc.getD [("_id", Val.str "b"),
          ("author", Val.list [Val.str "\\textbf\x7bJ\x7d"]),
          ("year", Val.int 2020)] "year" (.int 0)) = some 2020 by decide]
    rw [show month_to_int (Doc.getD [("_id", Val.str "b"),
          ("author", Val.list [Val.str "\\textbf\x7bJ\x7d"]),
          ("year", Val.int 2020)] "month" (.int 1)) = some 1
      by decide]
    rw [show pyToInt (Doc.getD [("_id", Val.str "b"),
          ("author", Val.list [Val.str "\\textbf\x7bJ\x7d"]),
          ("year", Val.int 2020)] "day" (.int 0)) = some 0 by decide]
    simp
  have hlt : doc_date_key [("_id", Val.str "a"),
          ("author", Val.list [Val.str "\\textbf\x7bJ\x7d"]),
          ("year", Val.int 2019)] < doc_date_key [("_id", Val.str "b"),
          ("author", Val.list [Val.str "\\textbf\x7bJ\x7d"]),
          ("year", Val.int 2020)] := by
    rw [hk1, hk2]
    norm_num
  have hwf : ∀ pub ∈ ([[("_id", Val.str "a"), ("author", Val.list [Val.str "J"]),
          ("year", Val.int 2019)], [("_id", Val.str "b"), ("author", Val.list [Val.str "J"]),
          ("year", Val.int 2020)]] : List Doc),
      pubWF [Val.str "J"] pub := by
    intro pub hpub
    rcases List.mem_cons.mp hpub with rfl | hpub2
    · exact ⟨[Val.str "J"], [], by decide, by decide, by decide, by decide,
        by decide⟩
    · rcases List.mem_cons.mp hpub2 with rfl | h3
      · exact ⟨[Val.str "J"], [], by decide, by decide, by decide, by decide,
          by decide⟩
      · exact absurd h3 (by simp)
  refine ⟨?_, hlt, by decide⟩
  rw [filter_publications, filterPubsLoop_char _ _ hwf, ok_bind, pure_eq_ok]
  rw [show (([[("_id", Val.str "a"), ("author", Val.list [Val.str "J"]),
          ("year", Val.int 2019)], [("_id", Val.str "b"), ("author", Val.list [Val.str "J"]),
          ("year", Val.int 2020)]] : List Doc).filter
        (pubRelevant [Val.str "J"])).map (boldDoc [Val.str "J"])
      = [[("_id", Val.str "a"),
          ("author", Val.list [Val.str "\\textbf\x7bJ\x7d"]),
          ("year", Val.int 2019)], [("_id", Val.str "b"),
          ("author", Val.list [Val.str "\\textbf\x7bJ\x7d"]),
          ("year", Val.int 2020)]] by decide]
  have hle : pubLe false [("_id", Val.str "a"),
          ("author", Val.list [Val.str "\\textbf\x7bJ\x7d"]),
          ("year", Val.int 2019)] [("_id", Val.str "b"),
          ("author", Val.list [Val.str "\\textbf\x7bJ\x7d"]),
          ("year", Val.int 2020)] = true := by
    rw [pubLe]
    simp only [Bool.false_eq_true, if_false, decide_eq_true_eq]
    exact le_of_lt hlt
  rw [show pySortBy (pubLe false) [[("_id", Val.str "a"),
          ("author", Val.list [Val.str "\\textbf\x7bJ\x7d"]),
          ("year", Val.int 2019)], [("_id", Val.str "b"),
          ("author", Val.list [Val.str "\\textbf\x7bJ\x7d"]),
          ("year", Val.int 2020)]]
      = [[("_id", Val.str "a"),
          ("author", Val.list [Val.str "\\textbf\x7bJ\x7d"]),
          ("year", Val.int 2019)], [("_id", Val.str "b"),
          ("author", Val.list [Val.str "\\textbf\x7bJ\x7d"]),
          ("year", Val.int 2020)]] by
    rw [pySortBy, List.foldr_cons, List.foldr_cons, List.foldr_nil,
      pyInsert, pyInsert, if_pos hle]]

/-- C2 witness: the amended characterization applied to the concrete
two-publication collection. -/
theorem c2_filter_publications_default_witness :
    filter_publications
        [[("_id", Val.str "a"), ("author", Val.list [Val.str "J"]),
          ("year", Val.int 2019)],
         [("_id", Val.str "b"), ("author", Val.list [Val.str "J"]),
          ("year", Val.int 2020)]]
        [Val.str "J"] false true Option.none Option.none
      = .ok (pySortBy (pubLe false)
          ((([[("_id", Val.str "a"), ("author", Val.list [Val.str "J"]),
              ("year", Val.int 2019)],
             [("_id", Val.str "b"), ("author", Val.list [Val.str "J"]),
              ("year", Val.int 2020)]] : List Doc).filter
            (pubRelevant [Val.str "J"])).map (boldDoc [Val.str "J"]))) :=
  c2_filter_publications_default _ _ (by
    intro pub hpub
    rcases List.mem_cons.mp hpub with rfl | hpub2
    · exact ⟨[Val.str "J"], [], by decide, by decide, by decide, by decide,
        by decide⟩
    · rcases List.mem_cons.mp hpub2 with rfl | h3
      · exact ⟨[Val.str "J"], [], by decide, by decide, by decide, by decide,
          by decide⟩
      · exact absurd h3 (by simp))

/-! ## C4: `merge_collections` -/

theorem mem_pyUpsert [DecidableEq α] (m : List (α × β)) (k : α) (v : β)
    (p : α × β) (h : p ∈ pyUpsert m k v) : p = (k, v) ∨ p ∈ m := by
  induction m with
  | nil => simpa [pyUpsert] using h
  | cons q rest ih =>
      rw [pyUpsert] at h
      by_cases hk : q.1 = k
      · rw [show (q.1, q.2) = q from rfl, if_pos hk] at h
        rcases List.mem_cons.mp h with rfl | hm
        · exact Or.inl rfl
        · exact Or.inr (by simp [hm])
      · rw [show (q.1, q.2) = q from rfl, if_neg hk] at h
        rcases List.mem_cons.mp h with rfl | hm
        · exact Or.inr (by simp)
        · rcases ih hm with h1 | h2
          · exact Or.inl h1
          · exact Or.inr (by simp [h2])

theorem mem_keys_pyUpsert [DecidableEq α] (m : List (α × β)) (k : α)
    (v : β) (x : α) (h : x ∈ (pyUpsert m k v).map Prod.fst) :
    x ∈ m.map Prod.fst ∨ x = k := by
  obtain ⟨p, hp, hx⟩ := List.mem_map.mp h
  rcases mem_pyUpsert m k v p hp with rfl | hm
  · exact Or.inr hx.symm
  · exact Or.inl (List.mem_map.mpr ⟨p, hm, hx⟩)

theorem keys_pyUpsert_nodup [DecidableEq α] (m : List (α × β)) (k : α)
    (v : β) (h : (m.map Prod.fst).Nodup) :
    ((pyUpsert m k v).map Prod.fst).Nodup := by
  induction m with
  | nil => simp [pyUpsert]
  | cons q rest ih =>
      rw [List.map_cons, List.nodup_cons] at h
      obtain ⟨hq, hrest⟩ := h
      rw [pyUpsert]
      by_cases hk : q.1 = k
      · rw [show (q.1, q.2) = q from rfl, if_pos hk, List.map_cons,
          List.nodup_cons]
        exact ⟨by simpa [hk] using hq, hrest⟩
      · rw [show (q.1, q.2) = q from rfl, if_neg hk, List.map_cons,
          List.nodup_cons]
        refine ⟨?_, ih hrest⟩
        intro hmem
        rcases mem_keys_pyUpsert rest k v q.1 hmem with h1 | h2
        · exact hq h1
        · exact hk h2

theorem alookup_mem [DecidableEq α] (m : List (α × β)) (k : α) (v : β)
    (h : alookup m k = some v) : (k, v) ∈ m := by
  induction m with
  | nil => exact absurd h (by simp [alookup])
  | cons q rest ih =>
      rw [alookup] at h
      by_cases hk : q.1 = k
      · rw [if_pos hk] at h
        obtain rfl := Option.some.inj h
        exact List.mem_cons.mpr (Or.inl (by rw [← hk]))
      · rw [if_neg hk] at h
        exact List.mem_cons.mpr (Or.inr (ih h))

theorem nodup_keys_unique [DecidableEq α] (m : List (α × β)) (k : α)
    (v1 v2 : β) (hnd : (m.map Prod.fst).Nodup) (h1 : (k, v1) ∈ m)
    (h2 : (k, v2) ∈ m) : v1 = v2 := by
  induction m with
  | nil => exact absurd h1 (by simp)
  | cons q rest ih =>
      rw [List.map_cons, List.nodup_cons] at hnd
      obtain ⟨hq, hrest⟩ := hnd
      rcases List.mem_cons.mp h1 with rfl | hm1
      · rcases List.mem_cons.mp h2 with h2' | hm2
        · exact (Prod.mk.injEq .. ▸ h2'.symm).2
        · exact absurd (List.mem_map.mpr ⟨(k, v2), hm2, rfl⟩) hq
      · rcases List.mem_cons.mp h2 with rfl | hm2
        · exact absurd (List.mem_map.mpr ⟨(k, v1), hm1, rfl⟩) hq
        · exact ih hrest hm1 hm2

theorem buildIdDict_mem (docs : List Doc) (acc m : List (Val × Doc))
    (h : buildIdDict docs acc = .ok m) :
    ∀ p ∈ m, p ∈ acc ∨ (p.2 ∈ docs ∧ p.1 = Doc.getD p.2 "_id" .none) := by
  induction docs generalizing acc with
  | nil =>
      rw [buildIdDict] at h
      obtain rfl := Except.ok.inj h
      exact fun p hp => Or.inl hp
  | cons d rest ih =>
      rw [buildIdDict] at h
      by_cases hh : (Doc.getD d "_id" .none).hashable = true
      · rw [if_pos hh] at h
        intro p hp
        rcases ih (pyUpsert acc (Doc.getD d "_id" .none) d) h p hp with
          hacc | ⟨hmem, hid⟩
        · rcases mem_pyUpsert acc _ d p hacc with rfl | hacc2
          · exact Or.inr ⟨by simp, rfl⟩
          · exact Or.inl hacc2
        · exact Or.inr ⟨by simp [hmem], hid⟩
      · rw [if_neg hh] at h
        exact absurd h (by simp)

theorem buildIdDict_nodup (docs : List Doc) (acc m : List (Val × Doc))
    (hacc : (acc.map Prod.fst).Nodup) (h : buildIdDict docs acc = .ok m) :
    (m.map Prod.fst).Nodup := by
  induction docs generalizing acc with
  | nil =>
      rw [buildIdDict] at h
      obtain rfl := Except.ok.inj h
      exact hacc
  | cons d rest ih =>
      rw [buildIdDict] at h
      by_cases hh : (Doc.getD d "_id" .none).hashable = true
      · rw [if_pos hh] at h
        exact ih (pyUpsert acc _ d) (keys_pyUpsert_nodup acc _ d hacc) h
      · rw [if_neg hh] at h
        exact absurd h (by simp)

theorem innerFold_mem (bdict : List (Val × Doc)) (tid : String) (k : Val)
    (m0 : List (Val × Val)) (p : Val × Val)
    (h : p ∈ bdict.foldl
      (fun m' q =>
        if Doc.getD q.2 tid (.str "") = k then pyUpsert m' k q.1 else m')
      m0) :
    p ∈ m0 ∨ (p.1 = k ∧ ∃ q ∈ bdict, q.1 = p.2 ∧
      Doc.getD q.2 tid (.str "") = k) := by
  induction bdict generalizing m0 with
  | nil => exact Or.inl (by simpa using h)
  | cons q rest ih =>
      rw [List.foldl_cons] at h
      rcases ih _ h with hm | ⟨hk, q0, hq0, hq1, hq2⟩
      · by_cases hc : Doc.getD q.2 tid (.str "") = k
        · rw [if_pos hc] at hm
          rcases mem_pyUpsert m0 k q.1 p hm with rfl | hm0
          · exact Or.inr ⟨rfl, q, by simp, rfl, hc⟩
          · exact Or.inl hm0
        · rw [if_neg hc] at hm
          exact Or.inl hm
      · exact Or.inr ⟨hk, q0, by simp [hq0], hq1, hq2⟩

theorem outerFold_mem (adict bdict : List (Val × Doc)) (tid : String)
    (m0 : List (Val × Val)) (p : Val × Val)
    (h : p ∈ adict.foldl
      (fun m pa =>
        bdict.foldl
          (fun m' q =>
            if Doc.getD q.2 tid (.str "") = pa.1 then pyUpsert m' pa.1 q.1
            else m') m)
      m0) :
    p ∈ m0 ∨ ∃ q ∈ bdict, q.1 = p.2 ∧
      Doc.getD q.2 tid (.str "") = p.1 := by
  induction adict generalizing m0 with
  | nil => exact Or.inl (by simpa using h)
  | cons pa rest ih =>
      rw [List.foldl_cons] at h
      rcases ih _ h with hm | hr
      · rcases innerFold_mem bdict tid pa.1 m0 p hm with hm0 | ⟨hk, hq⟩
        · exact Or.inl hm0
        · exact Or.inr (by
            obtain ⟨q, hq0, hq1, hq2⟩ := hq
            exact ⟨q, hq0, hq1, by rw [hq2, hk]⟩)
      · exact Or.inr hr

theorem buildChained_mem (adict bdict : List (Val × Doc))
    (l : List (Val × Val)) (acc out : List (Val × ChainDB))
    (h : buildChained adict bdict l acc = .ok out) :
    ∀ p ∈ out, p ∈ acc ∨ ∃ kv ∈ l, ∃ ad bd,
      alookup adict kv.1 = some ad ∧ alookup bdict kv.2 = some bd ∧
      p = (kv.1, ChainDB.mk ad bd) := by
  induction l generalizing acc with
  | nil =>
      rw [buildChained] at h
      obtain rfl := Except.ok.inj h
      exact fun p hp => Or.inl hp
  | cons kv rest ih =>
      rw [buildChained] at h
      cases ha : alookup adict kv.1 with
      | none => rw [ha] at h; exact absurd h (by simp)
      | some ad =>
          cases hb : alookup bdict kv.2 with
          | none => rw [ha, hb] at h; exact absurd h (by simp)
          | some bd =>
              rw [ha, hb] at h
              intro p hp
              rcases ih _ h p hp with hacc | ⟨kv0, hkv0, ad0, bd0, h1, h2, h3⟩
              · rcases mem_pyUpsert acc kv.1 (ChainDB.mk ad bd) p hacc with
                  rfl | hacc2
                · exact Or.inr ⟨kv, by simp, ad, bd, ha, hb, rfl⟩
                · exact Or.inl hacc2
              · exact Or.inr ⟨kv0, by simp [hkv0], ad0, bd0, h1, h2, h3⟩

/-- C4: `merge_collections` is an inner join: every result is a
`ChainDB` whose inferior layer is a document of the inferior collection
whose `_id` equals some superior document's foreign-key value (that
superior document being the superior layer), and an inferior document
with no matching superior document contributes nothing. -/
theorem c4_merge_collections_inner_join (a b : List Doc) (tid : String)
    (res : List ChainDB) (h : merge_collections a b tid = .ok res) :
    (∀ m ∈ res, ∃ aDoc ∈ a, m.inferior = aDoc ∧ ∃ bDoc ∈ b,
      Doc.getD bDoc tid (.str "") = Doc.getD aDoc "_id" .none ∧
      m.superior = bDoc) ∧
    (∀ aDoc ∈ a,
      (∀ bDoc ∈ b, Doc.getD bDoc tid (.str "") ≠ Doc.getD aDoc "_id" .none) →
      ∀ m ∈ res, Doc.getD m.inferior "_id" .none ≠
        Doc.getD aDoc "_id" .none) := by
  have hmain : ∀ m ∈ res, ∃ aDoc ∈ a, m.inferior = aDoc ∧
      Doc.getD aDoc "_id" .none = Doc.getD m.inferior "_id" .none ∧
      ∃ bDoc ∈ b, Doc.getD bDoc tid (.str "") = Doc.getD aDoc "_id" .none ∧
      m.superior = bDoc := by
    rw [merge_collections] at h
    cases hA : buildIdDict a [] with
    | error e => rw [hA, error_bind] at h; exact absurd h (by simp)
    | ok adict =>
        rw [hA, ok_bind] at h
        cases hB : buildIdDict b [] with
        | error e => rw [hB, error_bind] at h; exact absurd h (by simp)
        | ok bdict =>
            rw [hB, ok_bind] at h
            dsimp only at h
            cases hC : buildChained adict bdict
                (adict.foldl
                  (fun m p =>
                    bdict.foldl
                      (fun m' q =>
                        if Doc.getD q.2 tid (.str "") = p.1 then
                          pyUpsert m' p.1 q.1
                        else m') m) []) [] with
            | error e => rw [hC, error_bind] at h; exact absurd h (by simp)
            | ok chained =>
                rw [hC, ok_bind, pure_eq_ok] at h
                obtain rfl := Except.ok.inj h
                intro m hm
                obtain ⟨p, hp, hsnd⟩ := List.mem_map.mp hm
                rcases buildChained_mem adict bdict _ [] chained hC p hp with
                  hnil | ⟨kv, hkv, ad, bd, hla, hlb, hpeq⟩
                · exact absurd hnil (by simp)
                · subst hpeq
                  obtain rfl : ChainDB.mk ad bd = m := hsnd
                  have hadm := alookup_mem adict kv.1 ad hla
                  have hbdm := alookup_mem bdict kv.2 bd hlb
                  rcases buildIdDict_mem a [] adict hA (kv.1, ad) hadm with
                    habs | ⟨hada, hadid⟩
                  · exact absurd habs (by simp)
                  · rcases buildIdDict_mem b [] bdict hB (kv.2, bd) hbdm with
                      habs | ⟨hbdb, hbdid⟩
                    · exact absurd habs (by simp)
                    · rcases outerFold_mem adict bdict tid [] kv hkv with
                        habs | ⟨q, hqmem, hq1, hq2⟩
                      · exact absurd habs (by simp)
                      · have hbnd : (bdict.map Prod.fst).Nodup :=
                          buildIdDict_nodup b [] bdict (by simp) hB
                        have hqeq : q.2 = bd :=
                          nodup_keys_unique bdict kv.2 q.2 bd hbnd
                            (by rw [← hq1]; exact hqmem) hbdm
                        refine ⟨ad, hada, rfl, by rw [← hadid], bd, hbdb, ?_, rfl⟩
                        rw [← hqeq, hq2, hadid]
  constructor
  · intro m hm
    obtain ⟨aDoc, ha, h1, h2, h3⟩ := hmain m hm
    exact ⟨aDoc, ha, h1, h3⟩
  · intro aDoc ha hnone m hm hideq
    obtain ⟨aDoc', ha', hinf, hid', bDoc, hb, hmatch, hsup⟩ := hmain m hm
    exact hnone bDoc hb (by rw [hmatch, hid', hideq])

/-- C4 witness: a two-document inferior collection where only one `_id`
is referenced by the superior collection's foreign key. -/
theorem c4_merge_collections_inner_join_witness :
    ∃ aDoc ∈ [[("_id", Val.str "p1"), ("t", Val.str "prop")],
      [("_id", Val.str "p2")]],
      (ChainDB.mk [("_id", Val.str "p1"), ("t", Val.str "prop")]
        [("_id", Val.str "g1"), ("proposal_id", Val.str "p1")]).inferior
        = aDoc ∧
      ∃ bDoc ∈ [[("_id", Val.str "g1"), ("proposal_id", Val.str "p1")]],
        Doc.getD bDoc "proposal_id" (.str "")
          = Doc.getD aDoc "_id" .none ∧
        (ChainDB.mk [("_id", Val.str "p1"), ("t", Val.str "prop")]
          [("_id", Val.str "g1"), ("proposal_id", Val.str "p1")]).superior
          = bDoc :=
  (c4_merge_collections_inner_join
    [[("_id", Val.str "p1"), ("t", Val.str "prop")], [("_id", Val.str "p2")]]
    [[("_id", Val.str "g1"), ("proposal_id", Val.str "p1")]]
    "proposal_id"
    [ChainDB.mk [("_id", Val.str "p1"), ("t", Val.str "prop")]
      [("_id", Val.str "g1"), ("proposal_id", Val.str "p1")]]
    (by decide)).1
    (ChainDB.mk [("_id", Val.str "p1"), ("t", Val.str "prop")]
      [("_id", Val.str "g1"), ("proposal_id", Val.str "p1")])
    (by simp)

/-! ## C10: the relevance stage of `filter_presentations` -/

theorem eMapM_congr_ok (f : α → Except PyErr β) (g : α → β) (l : List α)
    (h : ∀ a ∈ l, f a = .ok (g a)) : eMapM f l = .ok (l.map g) := by
  induction l with
  | nil => rfl
  | cons a rest ih =>
      rw [eMapM, h a (by simp), ok_bind,
        ih (fun x hx => h x (by simp [hx])), ok_bind, pure_eq_ok,
        List.map_cons]

theorem authorIds_ok (l : List (Option Doc))
    (h : ∀ d : Doc, some d ∈ l → (Doc.get? d "_id").isSome = true) :
    authorIds l = .ok (l.filterMap (fun o => o.bind
      (fun d => Doc.get? d "_id"))) := by
  induction l with
  | nil => rfl
  | cons o rest ih =>
      cases o with
      | none =>
          rw [authorIds, ih (fun d hd => h d (by simp [hd]))]
          simp
      | some d =>
          have hid := h d (by simp)
          cases hg : Doc.get? d "_id" with
          | none => rw [hg] at hid; exact absurd hid (by simp)
          | some idv =>
              rw [authorIds]
              rw [show Doc.getE d "_id" = .ok idv by rw [Doc.getE, hg]]
              rw [ok_bind, ih (fun d' hd' => h d' (by simp [hd'])), ok_bind,
                pure_eq_ok, List.filterMap_cons]
              simp [hg]

theorem contains_filterMap_eq_any (l : List α) (g : α → Option Val)
    (x : Val) (p : α → Bool)
    (hpt : ∀ a ∈ l, (g a = some x) ↔ p a = true) :
    (l.filterMap g).contains x = l.any p := by
  induction l with
  | nil => rfl
  | cons a rest ih =>
      have ihr := ih (fun y hy => hpt y (by simp [hy]))
      rw [List.filterMap_cons, List.any_cons]
      cases hg : g a with
      | none =>
          have hpa : p a = false := by
            rcases Bool.eq_false_or_eq_true (p a) with h | h
            · exact absurd ((hpt a (by simp)).mpr h) (by simp [hg])
            · exact h
          rw [hpa, ihr]
          simp
      | some v =>
          by_cases hvx : v = x
          · subst hvx
            have hpa : p a = true := (hpt a (by simp)).mp hg
            rw [hpa]
            simp [List.contains_cons]
          · have hpa : p a = false := by
              rcases Bool.eq_false_or_eq_true (p a) with h | h
              · have := (hpt a (by simp)).mpr h
                rw [hg] at this
                exact absurd (Option.some.inj this) hvx
              · exact h
            rw [hpa, List.contains_cons, ihr]
            simp [Ne.symm hvx, bne]

/-- The claim's relevance predicate for one presentation: fuzzy-resolving
one of its authors against the people collection yields a document whose
`_id` is the fixed string `"sbillinge"`. -/
def presRelevantClaim (people : List Doc) (pres : Doc) : Bool :=
  match presAuthorsList pres with
  | .ok as_ => as_.any (fun a =>
      match fuzzy_retrieval people ["aka", "name", "_id"] a false with
      | .ok (some d) => Doc.getD d "_id" .none = .str "sbillinge"
      | _ => false)
  | _ => false

theorem presStage1_char (people presl : List Doc)
    (h1 : ∀ pres ∈ presl, ∃ as_, presAuthorsList pres = .ok as_)
    (h2 : ∀ doc ∈ people, (Doc.get? doc "_id").isSome = true) :
    presStage1 people presl
      = .ok (presl.filter (presRelevantClaim people)) := by
  induction presl with
  | nil => rfl
  | cons pres rest ih =>
      obtain ⟨as_, ha⟩ := h1 pres (by simp)
      have ihr := ih (fun p hp => h1 p (by simp [hp]))
      rw [presStage1, ha, ok_bind]
      rw [eMapM_congr_ok _
        (fun a => people.find? (fuzzyMatches ["aka", "name", "_id"] a false))
        as_ (fun a _ => fuzzy_ci_eq_find people ["aka", "name", "_id"] a),
        ok_bind]
      rw [authorIds_ok _ (by
        intro d hd
        obtain ⟨a, _, hfind⟩ := List.mem_map.mp hd
        exact h2 d (List.mem_of_find?_eq_some hfind)), ok_bind]
      rw [ihr, ok_bind, pure_eq_ok, List.filter_cons]
      have hcond : ((as_.map (fun a => people.find?
            (fuzzyMatches ["aka", "name", "_id"] a false))).filterMap
          (fun o => o.bind (fun d => Doc.get? d "_id"))).contains
            (.str "sbillinge")
          = presRelevantClaim people pres := by
        rw [List.filterMap_map]
        rw [presRelevantClaim, ha]
        apply contains_filterMap_eq_any
        intro a _
        rw [Function.comp]
        cases hf : people.find? (fuzzyMatches ["aka", "name", "_id"] a false)
          with
        | none =>
            rw [fuzzy_ci_eq_find, hf]
            simp
        | some d =>
            rw [fuzzy_ci_eq_find, hf]
            have hid := h2 d (List.mem_of_find?_eq_some hf)
            cases hg : Doc.get? d "_id" with
            | none => rw [hg] at hid; exact absurd hid (by simp)
            | some idv =>
                simp only [Option.some_bind, hg, Doc.getD]
                constructor
                · intro hsome
                  obtain rfl := Option.some.inj hsome
                  simp
                · intro hdec
                  simp only [decide_eq_true_eq, Option.getD_some] at hdec
                  rw [hdec]
      rw [hcond]

theorem presStage2_subset (statuses : List Val) (l out : List Doc)
    (h : presStage2 statuses l = .ok out) : ∀ p ∈ out, p ∈ l := by
  induction l generalizing out with
  | nil =>
      obtain rfl := Except.ok.inj h
      intro p hp
      exact absurd hp (by simp)
  | cons pres rest ih =>
      rw [presStage2] at h
      cases hs : Doc.getE pres "status" with
      | error e => rw [hs, error_bind] at h; exact absurd h (by simp)
      | ok st =>
          rw [hs, ok_bind] at h
          cases hr : presStage2 statuses rest with
          | error e => rw [hr, error_bind] at h; exact absurd h (by simp)
          | ok out0 =>
              rw [hr, ok_bind, pure_eq_ok] at h
              obtain rfl := Except.ok.inj h
              intro p hp
              by_cases hc : (statuses.contains st || statuses.contains
                  (.str "all")) = true
              · rw [if_pos hc] at hp
                rcases List.mem_cons.mp hp with rfl | hp0
                · simp
                · simp [ih out0 hr p hp0]
              · rw [if_neg hc] at hp
                simp [ih out0 hr p hp]

theorem presStage3_subset (types : List Val) (l out : List Doc)
    (h : presStage3 types l = .ok out) : ∀ p ∈ out, p ∈ l := by
  induction l generalizing out with
  | nil =>
      obtain rfl := Except.ok.inj h
      intro p hp
      exact absurd hp (by simp)
  | cons pres rest ih =>
      rw [presStage3] at h
      cases hs : Doc.getE pres "type" with
      | error e => rw [hs, error_bind] at h; exact absurd h (by simp)
      | ok tv =>
          rw [hs, ok_bind] at h
          cases hr : presStage3 types rest with
          | error e => rw [hr, error_bind] at h; exact absurd h (by simp)
          | ok out0 =>
              rw [hr, ok_bind, pure_eq_ok] at h
              obtain rfl := Except.ok.inj h
              intro p hp
              by_cases hc : (types.contains tv || types.contains
                  (.str "all")) = true
              · rw [if_pos hc] at hp
                rcases List.mem_cons.mp hp with rfl | hp0
                · simp
                · simp [ih out0 hr p hp0]
              · rw [if_neg hc] at hp
                simp [ih out0 hr p hp]

theorem presStage4_subset (since : Option PyDate) (l out : List Doc)
    (h : presStage4 since l = .ok out) : ∀ p ∈ out, p ∈ l := by
  induction l generalizing out with
  | nil =>
      rw [presStage4] at h
      obtain rfl := Except.ok.inj h
      intro p hp
      exact absurd hp (by simp)
  | cons pres rest ih =>
      cases since with
      | none =>
          rw [presStage4] at h
          cases hr : presStage4 Option.none rest with
          | error e => rw [hr, error_bind] at h; exact absurd h (by simp)
          | ok out0 =>
              rw [hr, ok_bind, pure_eq_ok] at h
              obtain rfl := Except.ok.inj h
              intro p hp
              rcases List.mem_cons.mp hp with rfl | hp0
              · simp
              · simp [ih out0 hr p hp0]
      | some s =>
          rw [presStage4] at h
          cases hd : presBeginDate pres with
          | error e => rw [hd, error_bind] at h; exact absurd h (by simp)
          | ok pd =>
              rw [hd, ok_bind] at h
              cases hr : presStage4 (some s) rest with
              | error e => rw [hr, error_bind] at h; exact absurd h (by simp)
              | ok out0 =>
                  rw [hr, ok_bind, pure_eq_ok] at h
                  obtain rfl := Except.ok.inj h
                  intro p hp
                  by_cases hc : pdKey pd > pdKey s
                  · rw [if_pos hc] at hp
                    rcases List.mem_cons.mp hp with rfl | hp0
                    · simp
                    · simp [ih out0 hr p hp0]
                  · rw [if_neg hc] at hp
                    simp [ih out0 hr p hp]

theorem presStage5_subset (before : Option PyDate) (l out : List Doc)
    (h : presStage5 before l = .ok out) : ∀ p ∈ out, p ∈ l := by
  induction l generalizing out with
  | nil =>
      rw [presStage5] at h
      obtain rfl := Except.ok.inj h
      intro p hp
      exact absurd hp (by simp)
  | cons pres rest ih =>
      cases before with
      | none =>
          rw [presStage5] at h
          cases hr : presStage5 Option.none rest with
          | error e => rw [hr, error_bind] at h; exact absurd h (by simp)
          | ok out0 =>
              rw [hr, ok_bind, pure_eq_ok] at h
              obtain rfl := Except.ok.inj h
              intro p hp
              rcases List.mem_cons.mp hp with rfl | hp0
              · simp
              · simp [ih out0 hr p hp0]
      | some bdt =>
          rw [presStage5] at h
          cases hd : presBeginDate pres with
          | error e => rw [hd, error_bind] at h; exact absurd h (by simp)
          | ok pd =>
              rw [hd, ok_bind] at h
              cases hr : presStage5 (some bdt) rest with
              | error e => rw [hr, error_bind] at h; exact absurd h (by simp)
              | ok out0 =>
                  rw [hr, ok_bind, pure_eq_ok] at h
                  obtain rfl := Except.ok.inj h
                  intro p hp
                  by_cases hc : pdKey pd < pdKey bdt
                  · rw [if_pos hc] at hp
                    rcases List.mem_cons.mp hp with rfl | hp0
                    · simp
                    · simp [ih out0 hr p hp0]
                  · rw [if_neg hc] at hp
                    simp [ih out0 hr p hp]

/-- C10: the relevance stage of `filter_presentations` keeps a
presentation exactly when fuzzy-resolving one of its authors against the
people collection yields a document whose `_id` is the hardcoded string
`"sbillinge"`; every presentation surviving the subsequent status, type
and date gates — for every choice of those parameters — still satisfies
this fixed-member predicate, so no parameter selects a different target
participant. -/
theorem c10_filter_presentations_relevance (people presl : List Doc)
    (h1 : ∀ pres ∈ presl, ∃ as_, presAuthorsList pres = .ok as_)
    (h2 : ∀ doc ∈ people, (Doc.get? doc "_id").isSome = true) :
    presStage1 people presl
      = .ok (presl.filter (presRelevantClaim people)) ∧
    (∀ (statuses types : List Val) (since before : Option PyDate)
        (s2 s3 s4 s5 : List Doc),
      presStage2 statuses (presl.filter (presRelevantClaim people))
        = .ok s2 →
      presStage3 types s2 = .ok s3 →
      presStage4 since s3 = .ok s4 →
      presStage5 before s4 = .ok s5 →
      ∀ p ∈ s5, presRelevantClaim people p = true) := by
  refine ⟨presStage1_char people presl h1 h2, ?_⟩
  intro statuses types since before s2 s3 s4 s5 hs2 hs3 hs4 hs5 p hp
  have hmem := presStage2_subset _ _ _ hs2 p
    (presStage3_subset _ _ _ hs3 p
      (presStage4_subset _ _ _ hs4 p
        (presStage5_subset _ _ _ hs5 p hp)))
  exact (List.mem_filter.mp hmem).2

/-- C10 witness: a two-presentation collection where only the
presentation authored by `"sbillinge"` survives the relevance stage. -/
theorem c10_filter_presentations_relevance_witness :
    presStage1 [[("_id", Val.str "sbillinge")], [("_id", Val.str "other")]]
        [[("authors", Val.list [Val.str "sbillinge"])],
         [("authors", Val.list [Val.str "other"])]]
      = .ok [[("authors", Val.list [Val.str "sbillinge"])]] := by
  rw [(c10_filter_presentations_relevance
    [[("_id", Val.str "sbillinge")], [("_id", Val.str "other")]]
    [[("authors", Val.list [Val.str "sbillinge"])],
     [("authors", Val.list [Val.str "other"])]]
    (by
      intro pres hp
      rcases List.mem_cons.mp hp with rfl | hp2
      · exact ⟨[Val.str "sbillinge"], by decide⟩
      · rcases List.mem_cons.mp hp2 with rfl | h3
        · exact ⟨[Val.str "other"], by decide⟩
        · exact absurd h3 (by simp))
    (by decide)).1]
  decide

/-! ## C9: fatal institution vs non-fatal department -/

theorem eMapM_error_propagate (f : α → Except PyErr β) (pre post : List α)
    (bad : α) (e : PyErr) (hbad : f bad = .error e)
    (hpre : ∀ q ∈ pre, ∃ d, f q = .ok d) :
    eMapM f (pre ++ bad :: post) = .error e := by
  induction pre with
  | nil =>
      rw [List.nil_append, eMapM, hbad, error_bind]
  | cons q rest ih =>
      obtain ⟨d, hd⟩ := hpre q (by simp)
      rw [List.cons_append, eMapM, hd, ok_bind,
        ih (fun x hx => hpre x (by simp [hx])), error_bind]

theorem Doc.getE_of_some (d : Doc) (k : String) (v : Val)
    (h : Doc.get? d k = some v) : Doc.getE d k = .ok v := by
  unfold Doc.getE
  rw [h]

theorem Doc.getE_of_none (d : Doc) (k : String)
    (h : Doc.get? d k = Option.none) :
    Doc.getE d k = .error .keyError := by
  unfold Doc.getE
  rw [h]

/-- C9 counterexample to unconditional graceful degradation: an
institution resolved by `name` alone (the document has no `_id` field)
whose `departments` table lacks the presentation's department makes the
whole `filter_presentations` run halt with `KeyError` — the warning
message inside the `except:` handler reads
`pres["institution"]["_id"]` before the placeholder is assigned — so a
merely-unresolvable department is NOT always non-fatal. -/
theorem c9_department_keyerror_counterexample :
    filter_presentations
        [[("_id", Val.str "sbillinge"), ("name", Val.str "Simon")]]
        [[("authors", Val.list [Val.str "sbillinge"]),
          ("status", Val.str "accepted"), ("type", Val.str "poster"),
          ("begin_year", Val.int 2020), ("begin_month", Val.int 1),
          ("begin_day", Val.int 2),
          ("institution", Val.str "columbia"),
          ("department", Val.str "physics")]]
        [[("name", Val.str "columbia"),
          ("departments", Val.dict [])]]
        [Val.str "all"] Option.none Option.none [Val.str "accepted"]
      = .error .keyError := by
  decide

/-- C9 (amended): in the normalization pass of `filter_presentations`,
an institution reference that fuzzy resolution cannot find is fatal —
the per-presentation pass raises `SystemExit`, and the whole filtering
run returns the error with no partial result — while a department that
cannot be found in the resolved institution's `departments` table is
non-fatal ONLY when the resolved institution document carries an `_id`:
then the pass succeeds with the department replaced by the placeholder
`{"name": original}`; when the resolved institution lacks `_id`, the
warning inside the `except:` handler raises an uncaught `KeyError` and
the run halts fatally. -/
theorem c9_institution_fatal_department_degraded :
    (∀ (people insts : List Doc) (pres p5 : Doc) (instV : Val),
      buildOneCore people pres = .ok p5 →
      Doc.get? p5 "institution" = some instV →
      fuzzy_retrieval insts ["aka", "name", "_id"] instV false
        = .ok Option.none →
      buildOne people insts pres = .error .systemExit) ∧
    (∀ (people insts : List Doc) (pres p5 instDoc : Doc) (instV idv : Val)
        (ds : String) (deps : List (String × Val)),
      buildOneCore people pres = .ok p5 →
      Doc.get? p5 "institution" = some instV →
      fuzzy_retrieval insts ["aka", "name", "_id"] instV false
        = .ok (some instDoc) →
      Doc.get? (Doc.set p5 "institution" (.dict instDoc)) "department"
        = some (.str ds) →
      Doc.get? instDoc "departments" = some (.dict deps) →
      alookup deps ds = Option.none →
      Doc.get? instDoc "_id" = some idv →
      buildOne people insts pres
        = .ok (Doc.set (Doc.set p5 "institution" (.dict instDoc))
            "department" (.dict [("name", .str ds)]))) ∧
    (∀ (people insts : List Doc) (pres p5 instDoc : Doc) (instV : Val)
        (ds : String) (deps : List (String × Val)),
      buildOneCore people pres = .ok p5 →
      Doc.get? p5 "institution" = some instV →
      fuzzy_retrieval insts ["aka", "name", "_id"] instV false
        = .ok (some instDoc) →
      Doc.get? (Doc.set p5 "institution" (.dict instDoc)) "department"
        = some (.str ds) →
      Doc.get? instDoc "departments" = some (.dict deps) →
      alookup deps ds = Option.none →
      Doc.get? instDoc "_id" = Option.none →
      buildOne people insts pres = .error .keyError) ∧
    (∀ (people presl insts : List Doc) (types statuses : List Val)
        (since before : Option PyDate) (s1 s2 s3 s4 pre post : List Doc)
        (bad : Doc) (e : PyErr),
      presStage1 people presl = .ok s1 →
      presStage2 statuses s1 = .ok s2 →
      presStage3 types s2 = .ok s3 →
      presStage4 since s3 = .ok s4 →
      presStage5 before s4 = .ok (pre ++ bad :: post) →
      (∀ q ∈ pre, ∃ d, buildOne people insts q = .ok d) →
      buildOne people insts bad = .error e →
      filter_presentations people presl insts types since before statuses
        = .error e) := by
  refine ⟨?_, ?_, ?_, ?_⟩
  · intro people insts pres p5 instV hcore hget hfz
    rw [buildOne, hcore, ok_bind, buildOneInst, hget]
    simp only [buildOneInstGo]
    rw [hfz, ok_bind]
    rfl
  · intro people insts pres p5 instDoc instV idv ds deps hcore hget hfz
      hdep hdeps hlook hid
    rw [buildOne, hcore, ok_bind, buildOneInst, hget]
    simp only [buildOneInstGo]
    rw [hfz, ok_bind]
    simp only [buildOneFz]
    rw [hdep]
    simp only [buildOneFz2]
    rw [hdeps]
    simp only [buildOneDept]
    rw [hlook]
    simp only [buildOneDeptLook]
    rw [deptPlaceholder, Doc.getE_of_some instDoc "_id" idv hid, ok_bind]
    rfl
  · intro people insts pres p5 instDoc instV ds deps hcore hget hfz
      hdep hdeps hlook hid
    rw [buildOne, hcore, ok_bind, buildOneInst, hget]
    simp only [buildOneInstGo]
    rw [hfz, ok_bind]
    simp only [buildOneFz]
    rw [hdep]
    simp only [buildOneFz2]
    rw [hdeps]
    simp only [buildOneDept]
    rw [hlook]
    simp only [buildOneDeptLook]
    rw [deptPlaceholder, Doc.getE_of_none instDoc "_id" hid, error_bind]
  · intro people presl insts types statuses since before s1 s2 s3 s4 pre
      post bad e h1 h2 h3 h4 h5 hpre hbad
    rw [filter_presentations, h1, ok_bind, h2, ok_bind, h3, ok_bind, h4,
      ok_bind, h5, ok_bind,
      eMapM_error_propagate _ pre post bad e hbad hpre, error_bind]

/-- C9 witness: a presentation whose institution cannot be resolved
against an empty institutions collection makes the whole run exit
fatally; the same presentation with a resolvable institution but an
unknown department builds successfully with the placeholder department. -/
theorem c9_institution_fatal_department_degraded_witness :
    filter_presentations
        [[("_id", Val.str "sbillinge"), ("name", Val.str "Simon")]]
        [[("authors", Val.list [Val.str "sbillinge"]),
          ("status", Val.str "accepted"), ("type", Val.str "poster"),
          ("begin_year", Val.int 2020), ("begin_month", Val.int 1),
          ("begin_day", Val.int 2),
          ("institution", Val.str "columbia")]]
        [] [Val.str "all"] Option.none Option.none [Val.str "accepted"]
      = .error .systemExit := by
  refine c9_institution_fatal_department_degraded.2.2.2
    [[("_id", Val.str "sbillinge"), ("name", Val.str "Simon")]]
    [[("authors", Val.list [Val.str "sbillinge"]),
      ("status", Val.str "accepted"), ("type", Val.str "poster"),
      ("begin_year", Val.int 2020), ("begin_month", Val.int 1),
      ("begin_day", Val.int 2),
      ("institution", Val.str "columbia")]]
    [] [Val.str "all"] [Val.str "accepted"] Option.none Option.none
    [[("authors", Val.list [Val.str "sbillinge"]),
      ("status", Val.str "accepted"), ("type", Val.str "poster"),
      ("begin_year", Val.int 2020), ("begin_month", Val.int 1),
      ("begin_day", Val.int 2),
      ("institution", Val.str "columbia")]]
    [[("authors", Val.list [Val.str "sbillinge"]),
      ("status", Val.str "accepted"), ("type", Val.str "poster"),
      ("begin_year", Val.int 2020), ("begin_month", Val.int 1),
      ("begin_day", Val.int 2),
      ("institution", Val.str "columbia")]]
    [[("authors", Val.list [Val.str "sbillinge"]),
      ("status", Val.str "accepted"), ("type", Val.str "poster"),
      ("begin_year", Val.int 2020), ("begin_month", Val.int 1),
      ("begin_day", Val.int 2),
      ("institution", Val.str "columbia")]]
    [[("authors", Val.list [Val.str "sbillinge"]),
      ("status", Val.str "accepted"), ("type", Val.str "poster"),
      ("begin_year", Val.int 2020), ("begin_month", Val.int 1),
      ("begin_day", Val.int 2),
      ("institution", Val.str "columbia")]]
    [] []
    [("authors", Val.list [Val.str "sbillinge"]),
      ("status", Val.str "accepted"), ("type", Val.str "poster"),
      ("begin_year", Val.int 2020), ("begin_month", Val.int 1),
      ("begin_day", Val.int 2),
      ("institution", Val.str "columbia")]
    .systemExit (by decide) (by decide) (by decide) (by decide) (by decide)
    (by simp) (by decide)
